import Mathlib

/-!
# Verification of the scyjava conversion subsystem

A shallow embedding of the scyjava type-conversion dispatcher
(file src/scyjava/_convert.py) in Lean 4, together with theorems settling
the specification claims about it.

The embedding models:

* the generic priority-ordered rule engine (Converter, insort-based
  registration in add_java_converter / add_py_converter, and the reversed
  scan in _convert);
* the stock Python-to-Java converters (_stock_java_converters) and the
  stock Java-to-Python converters (_stock_py_converters);
* the recursive structural conversions (_convertMap, _convertSet,
  _convertIterable) and the collection adapter façades (JavaList, JavaMap,
  JavaSet) including their __eq__/__getitem__/__setitem__ methods.

Python and Java values of the conversion-relevant fragment are modeled by a
single inductive type Val.  Machine integers are modeled as unbounded Int
with the explicit Java range bounds from the code; Python floats are modeled
by a four-way classification (finite rational / +inf / -inf / NaN), which
captures exactly the operations the conversion code performs on them
(math.isinf, math.isnan, and comparisons against Float.MAX_VALUE and
Double.MAX_VALUE).  Priorities are the exact integer values of the
Priority class constants (the source stores them as floats, but every
priority appearing in the code is an integer, and only their order matters).
-/

/-! ## Decimal strings

The int-to-BigInteger converter builds a java.math.BigInteger from the
decimal string produced by Python's str(obj), and the BigInteger-to-int
converter parses the decimal string back with int(str(obj)).  We model
decimal printing and parsing explicitly and prove the round trip exact. -/

/-- Little-endian base-10 digits of a natural number, with explicit fuel
(fuel n suffices because n / 10 < n for n > 0).  Structural recursion on the
fuel keeps the definition kernel-computable. -/
def digitsAux : Nat → Nat → List Nat
  | 0, _ => []
  | fuel + 1, n => if n = 0 then [] else n % 10 :: digitsAux fuel (n / 10)

/-- Little-endian decimal digits of a natural number (empty list for 0). -/
def decDigits (n : Nat) : List Nat := digitsAux n n

/-- Value of a little-endian digit list. -/
def ofDigits (l : List Nat) : Nat := l.foldr (fun d a => d + 10 * a) 0

/-- The character for one decimal digit. -/
def digitChar (d : Nat) : Char := Char.ofNat (48 + d)

/-- The digit value of one decimal character. -/
def charDigit (c : Char) : Nat := c.toNat - 48

/-- Python str(n) for a natural number: its decimal digits. -/
def natStr (n : Nat) : String :=
  if n = 0 then "0" else String.mk ((decDigits n).reverse.map digitChar)

/-- Python str(i) for an int: an optional minus sign, then decimal digits. -/
def decStr (i : Int) : String :=
  if i < 0 then "-" ++ natStr i.natAbs else natStr i.natAbs

/-- Value of a big-endian list of decimal characters. -/
def parseNat (cs : List Char) : Nat := cs.foldl (fun a c => 10 * a + charDigit c) 0

/-- Python int(s) and Java new BigInteger(s) on a decimal string: an optional
leading minus sign followed by decimal digits.  (The empty string is not
produced by decStr; it parses to 0 here.) -/
def parseDec (s : String) : Int :=
  match s.data with
  | [] => 0
  | c :: cs => if c = '-' then -(parseNat cs : Int) else (parseNat (c :: cs) : Int)

theorem ofDigits_digitsAux (fuel : Nat) :
    ∀ n : Nat, n ≤ fuel → ofDigits (digitsAux fuel n) = n := by
  induction fuel with
  | zero => intro n hn; interval_cases n; simp [digitsAux, ofDigits]
  | succ fuel ih =>
      intro n hn
      by_cases h0 : n = 0
      · simp [digitsAux, h0, ofDigits]
      · have hdiv : n / 10 ≤ fuel := by
          have h1 : n / 10 < n := Nat.div_lt_self (Nat.pos_of_ne_zero h0) (by omega)
          omega
        simp only [digitsAux, h0, if_false, ofDigits, List.foldr_cons]
        have := ih (n / 10) hdiv
        simp only [ofDigits] at this
        rw [this]
        omega

theorem ofDigits_decDigits (n : Nat) : ofDigits (decDigits n) = n :=
  ofDigits_digitsAux n n le_rfl

theorem digitsAux_lt_ten (fuel : Nat) :
    ∀ n d : Nat, d ∈ digitsAux fuel n → d < 10 := by
  induction fuel with
  | zero => intro n d hd; simp [digitsAux] at hd
  | succ fuel ih =>
      intro n d hd
      by_cases h0 : n = 0
      · simp [digitsAux, h0] at hd
      · simp only [digitsAux, h0, if_false, List.mem_cons] at hd
        rcases hd with h | h
        · subst h; exact Nat.mod_lt _ (by omega)
        · exact ih _ _ h

theorem charDigit_digitChar {d : Nat} (hd : d < 10) : charDigit (digitChar d) = d := by
  interval_cases d <;> rfl

theorem digitChar_ne_minus {d : Nat} (hd : d < 10) : digitChar d ≠ '-' := by
  interval_cases d <;> decide

theorem parseNat_digits {l : List Nat} (hl : ∀ d ∈ l, d < 10) :
    parseNat (l.reverse.map digitChar) = ofDigits l := by
  rw [parseNat, List.foldl_map, List.foldl_reverse]
  induction l with
  | nil => rfl
  | cons d l ih =>
      simp only [List.foldr_cons, ofDigits, charDigit_digitChar (hl d (by simp))]
      rw [ih (fun x hx => hl x (by simp [hx]))]
      simp only [ofDigits]
      omega

theorem parseNat_natStr (n : Nat) : parseNat (natStr n).data = n := by
  by_cases h0 : n = 0
  · subst h0; rfl
  · have : (natStr n).data = (decDigits n).reverse.map digitChar := by
      simp [natStr, h0]
    rw [this]
    have := parseNat_digits (l := decDigits n) (fun d hd => digitsAux_lt_ten n n d hd)
    rw [this, ofDigits_decDigits]

theorem natStr_data_ne_nil (n : Nat) : (natStr n).data ≠ [] := by
  by_cases h0 : n = 0
  · subst h0; decide
  · simp only [natStr, h0, if_false]
    intro hcon
    have hne : decDigits n ≠ [] := by
      simp only [decDigits]
      cases hn : digitsAux n n with
      | nil =>
          have := ofDigits_decDigits n
          rw [decDigits, hn] at this
          simp [ofDigits] at this
          exact absurd this.symm h0
      | cons a l => simp
    have : ((decDigits n).reverse.map digitChar) = [] := hcon
    simp at this
    exact hne this

theorem natStr_head_ne_minus (n : Nat) :
    ∀ c cs, (natStr n).data = c :: cs → c ≠ '-' := by
  intro c cs hdata
  by_cases h0 : n = 0
  · subst h0
    have : c = '0' := by
      have h : (natStr 0).data = ['0'] := rfl
      rw [h] at hdata
      exact (List.cons.injEq _ _ _ _ ▸ hdata).1.symm ▸ rfl
    subst this; decide
  · have hd : (natStr n).data = (decDigits n).reverse.map digitChar := by
      simp [natStr, h0]
    rw [hd] at hdata
    have hc : c ∈ (decDigits n).reverse.map digitChar := by
      rw [hdata]; simp
    simp only [List.mem_map, List.mem_reverse] at hc
    obtain ⟨d, hdm, hdc⟩ := hc
    have : d < 10 := digitsAux_lt_ten n n d hdm
    rw [← hdc]
    exact digitChar_ne_minus this

/-- The decimal-string round trip is exact: parsing the string printed for an
integer recovers the integer.  This is the exactness of the
int → BigInteger → int path in the converters. -/
theorem parseDec_decStr (i : Int) : parseDec (decStr i) = i := by
  by_cases hneg : i < 0
  · have hd : (decStr i).data = '-' :: (natStr i.natAbs).data := by
      simp only [decStr, hneg, if_true]
      rw [String.data_append]
      rfl
    have hval : parseDec (decStr i) = -(parseNat (natStr i.natAbs).data : Int) := by
      unfold parseDec
      rw [hd]
      simp
    rw [hval, parseNat_natStr]
    omega
  · have hd : (decStr i).data = (natStr i.natAbs).data := by
      simp [decStr, hneg]
    cases hds : (natStr i.natAbs).data with
    | nil => exact absurd hds (natStr_data_ne_nil _)
    | cons c cs =>
        have hc : c ≠ '-' := natStr_head_ne_minus _ c cs hds
        have hval : parseDec (decStr i) = (parseNat (c :: cs) : Int) := by
          unfold parseDec
          rw [hd, hds]
          simp [hc]
        rw [hval]
        have := parseNat_natStr i.natAbs
        rw [hds] at this
        rw [this]
        omega

/-! ## Floats

A Python float is an IEEE double.  The conversion code only classifies floats
(math.isinf, math.isnan) and compares them against Java's Float.MAX_VALUE and
Double.MAX_VALUE, so we model a float as a finite rational or one of the
three non-finite values, with Python's comparison and equality semantics
(every comparison involving NaN is false). -/

inductive PFloat where
  | finite (q : ℚ)
  | inf
  | neginf
  | nan
  deriving DecidableEq

/-- Python math.isinf. -/
def PFloat.isinf : PFloat → Bool
  | .inf => true
  | .neginf => true
  | _ => false

/-- Python math.isnan. -/
def PFloat.isnan : PFloat → Bool
  | .nan => true
  | _ => false

/-- Python's <= on floats: false whenever either operand is NaN. -/
def pfLe : PFloat → PFloat → Bool
  | .nan, _ => false
  | _, .nan => false
  | .neginf, _ => true
  | _, .inf => true
  | .inf, _ => false
  | _, .neginf => false
  | .finite q, .finite r => decide (q ≤ r)

/-- Python's == on floats: NaN is unequal to everything, including itself. -/
def pfEq : PFloat → PFloat → Bool
  | .nan, _ => false
  | _, .nan => false
  | .inf, .inf => true
  | .neginf, .neginf => true
  | .finite q, .finite r => decide (q = r)
  | _, _ => false

/-- Java Float.MAX_VALUE, exactly: (2 - 2^-23) * 2^127. -/
def floatMaxValue : ℚ := (2 ^ 24 - 1) * 2 ^ 104

/-- Java Double.MAX_VALUE, exactly: (2 - 2^-52) * 2^1023. -/
def doubleMaxValue : ℚ := (2 ^ 53 - 1) * 2 ^ 971

/-! ## Values

One inductive type models every host (Python) and managed (Java) value in
the conversion-relevant fragment, plus the scyjava adapter façades.  Java
collections may also contain the Python value None (JPype stores it as a
Java null), so collection element positions simply hold Val.

Java objects whose class is none of the classes the stock converters test
(java.lang.Object instances, for example) are modeled by jforeign; the
string records the class name for error messages. -/

inductive Val where
  | vnone
  | vbool (b : Bool)
  | vint (i : Int)
  | vfloat (x : PFloat)
  | vstr (s : String)
  | vpath (s : String)
  | vlist (xs : List Val)
  | vset (xs : List Val)
  | vdict (kvs : List (Val × Val))
  | vbuiltinStr
  | jboolean (b : Bool)
  | jcharacter (c : Char)
  | jbyte (i : Int)
  | jshort (i : Int)
  | jinteger (i : Int)
  | jlong (i : Int)
  | jbigint (s : String)
  | jfloat (x : PFloat)
  | jdouble (x : PFloat)
  | jbigdec (x : PFloat)
  | jstring (s : String)
  | jpath (s : String)
  | jlist (xs : List Val)
  | jset (xs : List Val)
  | jmap (kvs : List (Val × Val))
  | jforeign (cls : String)
  | wlist (xs : List Val)
  | wset (xs : List Val)
  | wmap (kvs : List (Val × Val))

/-
  Meaning of the constructors, by group:
  * vnone .. vdict: native Python values (None, bool, int, float, str,
    pathlib.Path, list, set, dict).  vbuiltinStr is the builtin type object
    str itself (it arises as the output of the buggy Character converter).
  * jboolean .. jforeign: Java objects (boxed primitives, java.lang.String,
    java.math.BigInteger as built from a decimal string, java.math.BigDecimal,
    java.nio.file.Path, java.util.ArrayList, java.util.LinkedHashSet,
    java.util.LinkedHashMap, and any other Java object).
  * wlist / wset / wmap: the scyjava adapter façades JavaList, JavaSet and
    JavaMap wrapping the corresponding Java collection.
-/

mutual
/-- Structural equality on values, also serving as Java Object.equals on the
modeled Java values (value equality for same-class boxed values, element-wise
equality for collections).  Mutual structural recursion keeps it
kernel-computable. -/
def veq : Val → Val → Bool
  | .vnone, .vnone => true
  | .vbool b, .vbool c => b == c
  | .vint i, .vint j => i == j
  | .vfloat x, .vfloat y => x == y
  | .vstr s, .vstr t => s == t
  | .vpath s, .vpath t => s == t
  | .vlist xs, .vlist ys => veqList xs ys
  | .vset xs, .vset ys => veqList xs ys
  | .vdict xs, .vdict ys => veqPairs xs ys
  | .vbuiltinStr, .vbuiltinStr => true
  | .jboolean b, .jboolean c => b == c
  | .jcharacter c, .jcharacter d => c == d
  | .jbyte i, .jbyte j => i == j
  | .jshort i, .jshort j => i == j
  | .jinteger i, .jinteger j => i == j
  | .jlong i, .jlong j => i == j
  | .jbigint s, .jbigint t => s == t
  | .jfloat x, .jfloat y => x == y
  | .jdouble x, .jdouble y => x == y
  | .jbigdec x, .jbigdec y => x == y
  | .jstring s, .jstring t => s == t
  | .jpath s, .jpath t => s == t
  | .jlist xs, .jlist ys => veqList xs ys
  | .jset xs, .jset ys => veqList xs ys
  | .jmap xs, .jmap ys => veqPairs xs ys
  | .jforeign s, .jforeign t => s == t
  | .wlist xs, .wlist ys => veqList xs ys
  | .wset xs, .wset ys => veqList xs ys
  | .wmap xs, .wmap ys => veqPairs xs ys
  | _, _ => false
def veqList : List Val → List Val → Bool
  | [], [] => true
  | x :: xs, y :: ys => veq x y && veqList xs ys
  | _, _ => false
def veqPairs : List (Val × Val) → List (Val × Val) → Bool
  | [], [] => true
  | (k, v) :: xs, (k', v') :: ys => veq k k' && veq v v' && veqPairs xs ys
  | _, _ => false
end

/-! ## Type tests and type names

Boolean functions modeling the isinstance / jinstance tests appearing in the
converter predicates.  Notes:

* Python bool is a subtype of int, so isinstance(obj, int) is true for
  booleans; isPyInt reflects that.
* Python str, list, set and dict are all collections.abc.Iterable; so are the
  adapter façades (JavaList and friends subclass the collections ABCs), and
  the adapters also count as Mapping / Set instances.
* jinstance tests are false on every non-Java value, and true exactly for the
  modeled Java classes; jforeign stands for a Java object whose class is none
  of the classes the stock converters test.
-/

/-- The isjava test: true exactly on Java objects. -/
def isjava : Val → Bool
  | .jboolean _ => true
  | .jcharacter _ => true
  | .jbyte _ => true
  | .jshort _ => true
  | .jinteger _ => true
  | .jlong _ => true
  | .jbigint _ => true
  | .jfloat _ => true
  | .jdouble _ => true
  | .jbigdec _ => true
  | .jstring _ => true
  | .jpath _ => true
  | .jlist _ => true
  | .jset _ => true
  | .jmap _ => true
  | .jforeign _ => true
  | _ => false

/-- Python isinstance(obj, bool). -/
def isPyBool : Val → Bool
  | .vbool _ => true
  | _ => false

/-- Python isinstance(obj, int): true for ints and for bools, because bool
subclasses int. -/
def isPyInt : Val → Bool
  | .vint _ => true
  | .vbool _ => true
  | _ => false

/-- Python isinstance(obj, float). -/
def isPyFloat : Val → Bool
  | .vfloat _ => true
  | _ => false

/-- Python isinstance(obj, str). -/
def isPyStr : Val → Bool
  | .vstr _ => true
  | _ => false

/-- Python isinstance(obj, pathlib.Path). -/
def isPyPath : Val → Bool
  | .vpath _ => true
  | _ => false

/-- Python isinstance(obj, collections.abc.Mapping): dicts and the JavaMap
adapter (a MutableMapping). -/
def isPyMapping : Val → Bool
  | .vdict _ => true
  | .wmap _ => true
  | _ => false

/-- Python isinstance(obj, collections.abc.Set): sets and the JavaSet adapter
(a MutableSet). -/
def isPySet : Val → Bool
  | .vset _ => true
  | .wset _ => true
  | _ => false

/-- Python isinstance(obj, collections.abc.Iterable): strings, lists, sets,
dicts, and all three collection adapters.  (Numbers, None, paths and type
objects are not iterable.) -/
def isPyIterable : Val → Bool
  | .vstr _ => true
  | .vlist _ => true
  | .vset _ => true
  | .vdict _ => true
  | .wlist _ => true
  | .wset _ => true
  | .wmap _ => true
  | _ => false

/-- The duck-typed pandas test: type(obj).__name__ == "DataFrame".  No value
in the modeled fragment has that class name. -/
def isDataFrame : Val → Bool
  | _ => false

/-- jinstance(obj, cls) for a given boxed/collection class, keyed by a
selector function; defined per class below. -/
def isJBoolean : Val → Bool
  | .jboolean _ => true
  | _ => false

def isJCharacter : Val → Bool
  | .jcharacter _ => true
  | _ => false

def isJByte : Val → Bool
  | .jbyte _ => true
  | _ => false

def isJShort : Val → Bool
  | .jshort _ => true
  | _ => false

def isJInteger : Val → Bool
  | .jinteger _ => true
  | _ => false

def isJLong : Val → Bool
  | .jlong _ => true
  | _ => false

def isJBigInteger : Val → Bool
  | .jbigint _ => true
  | _ => false

def isJFloat : Val → Bool
  | .jfloat _ => true
  | _ => false

def isJDouble : Val → Bool
  | .jdouble _ => true
  | _ => false

def isJBigDecimal : Val → Bool
  | .jbigdec _ => true
  | _ => false

def isJString : Val → Bool
  | .jstring _ => true
  | _ => false

def isJPath : Val → Bool
  | .jpath _ => true
  | _ => false

def isJList : Val → Bool
  | .jlist _ => true
  | _ => false

def isJSet : Val → Bool
  | .jset _ => true
  | _ => false

def isJMap : Val → Bool
  | .jmap _ => true
  | _ => false

/-- jinstance(obj, java.util.Collection): Lists and Sets are Collections
(Maps are not). -/
def isJCollection : Val → Bool
  | .jlist _ => true
  | .jset _ => true
  | _ => false

/-- jinstance(obj, java.lang.Iterable): Lists and Sets are Iterable. -/
def isJIterable : Val → Bool
  | .jlist _ => true
  | .jset _ => true
  | _ => false

/-- jinstance(obj, java.util.Iterator): no modeled value is a bare
Iterator. -/
def isJIterator : Val → Bool
  | _ => false

/-- The is_jarray test: no modeled value is a Java array. -/
def is_jarray : Val → Bool
  | _ => false

/-- Python str(type(obj)), as used in the unconvertible-type error message. -/
def pyTypeStr : Val → String
  | .vnone => "<class 'NoneType'>"
  | .vbool _ => "<class 'bool'>"
  | .vint _ => "<class 'int'>"
  | .vfloat _ => "<class 'float'>"
  | .vstr _ => "<class 'str'>"
  | .vpath _ => "<class 'pathlib.PosixPath'>"
  | .vlist _ => "<class 'list'>"
  | .vset _ => "<class 'set'>"
  | .vdict _ => "<class 'dict'>"
  | .vbuiltinStr => "<class 'type'>"
  | .jboolean _ => "<java class 'java.lang.Boolean'>"
  | .jcharacter _ => "<java class 'java.lang.Character'>"
  | .jbyte _ => "<java class 'java.lang.Byte'>"
  | .jshort _ => "<java class 'java.lang.Short'>"
  | .jinteger _ => "<java class 'java.lang.Integer'>"
  | .jlong _ => "<java class 'java.lang.Long'>"
  | .jbigint _ => "<java class 'java.math.BigInteger'>"
  | .jfloat _ => "<java class 'java.lang.Float'>"
  | .jdouble _ => "<java class 'java.lang.Double'>"
  | .jbigdec _ => "<java class 'java.math.BigDecimal'>"
  | .jstring _ => "<java class 'java.lang.String'>"
  | .jpath _ => "<java class 'java.nio.file.Path'>"
  | .jlist _ => "<java class 'java.util.ArrayList'>"
  | .jset _ => "<java class 'java.util.LinkedHashSet'>"
  | .jmap _ => "<java class 'java.util.LinkedHashMap'>"
  | .jforeign cls => "<java class '" ++ cls ++ "'>"
  | .wlist _ => "<class 'scyjava._convert.JavaList'>"
  | .wset _ => "<class 'scyjava._convert.JavaSet'>"
  | .wmap _ => "<class 'scyjava._convert.JavaMap'>"

/-! ## The generic rule engine

The Converter named tuple, the insort-based registration used by
add_java_converter / add_py_converter, and the dispatch scan of _convert.
Hints are modeled by the value of the one hint key the stock predicates
consult: hints["type"], present or absent.  A conversion either produces a
value or raises; raising is modeled by the error side of Except. -/

/-- The value of the "type" entry of the hints dictionary, if present. -/
abbrev Hints := Option String

/-- An error raised during conversion.  typeError is Python's TypeError with
its message; unmodeled marks actions whose behavior is outside the modeled
fragment (they are provably never selected on modeled values). -/
inductive ConvErr where
  | typeError (msg : String)
  | unmodeled (what : String)
  deriving DecidableEq

/-- The message of _raise_type_exception. -/
def unsupportedMsg (v : Val) : String := "Unsupported type: " ++ pyTypeStr v

namespace Priority

/-- Priority.FIRST (1e300 in the source; every priority in the code is an
integer, and only the order matters, so Int is used). -/
def FIRST : Int := 10 ^ 300

def EXTREMELY_HIGH : Int := 1000000

def VERY_HIGH : Int := 10000

def HIGH : Int := 100

def NORMAL : Int := 0

def LOW : Int := -100

def VERY_LOW : Int := -10000

def EXTREMELY_LOW : Int := -1000000

def LAST : Int := -(10 ^ 300)

end Priority

/-- The Converter named tuple: a predicate, an action, a priority and a name.
The action is represented by a tag of type R (one tag per stock action, with
an interpreter applying it); this keeps the rule table first-class while the
recursive structural actions call back into the dispatcher. -/
structure Converter (R : Type) where
  predicate : Val → Hints → Bool
  converter : R
  priority : Int := Priority.NORMAL
  name : String := "<unnamed>"

/-- bisect.insort on a priority-sorted list, as used by add_java_converter
and add_py_converter: insert after any existing entries of equal priority
(Converter.__lt__ compares priorities). -/
def insort {R : Type} (c : Converter R) : List (Converter R) → List (Converter R)
  | [] => [c]
  | b :: l => if c.priority < b.priority then c :: b :: l else b :: insort c l

/-- The registry obtained by registering the given converters in order, each
via insort, starting from the empty list — exactly what happens when
_initialize_converters feeds the stock converters to add_java_converter /
add_py_converter, followed by any user registrations. -/
def registerAll {R : Type} (cs : List (Converter R)) : List (Converter R) :=
  cs.foldl (fun l c => insort c l) []

/-- The scan of _convert: iterate the registry from the end (highest priority
first) and return the first converter whose predicate accepts the value. -/
def selectConverter {R : Type} (converters : List (Converter R)) (v : Val) (h : Hints) :
    Option (Converter R) :=
  converters.reverse.find? (fun c => c.predicate v h)

/-- Modelled from the spec: the rule applied is the one with the highest
priority among all registered rules whose predicate accepts the value, and
among rules of equal priority the one registered later is preferred.  This
definition follows the spec's words directly (scanning the registration
sequence, keeping the latest best), to be compared with the insort-plus-scan
implementation. -/
def pickSpec {R : Type} (cs : List (Converter R)) (v : Val) (h : Hints) :
    Option (Converter R) :=
  cs.foldl
    (fun acc c =>
      if c.predicate v h then
        match acc with
        | none => some c
        | some b => if b.priority ≤ c.priority then some c else some b
      else acc)
    none

/-! ## Engine lemmas -/

theorem mem_insort {R : Type} {x c : Converter R} {l : List (Converter R)} :
    x ∈ insort c l ↔ x = c ∨ x ∈ l := by
  induction l with
  | nil => simp [insort]
  | cons b t ih =>
      by_cases hcb : c.priority < b.priority
      · simp only [insort, if_pos hcb, List.mem_cons]
      · simp only [insort, if_neg hcb, List.mem_cons, ih]
        tauto

theorem insort_sorted {R : Type} (c : Converter R) {l : List (Converter R)}
    (hl : l.Sorted (fun a b : Converter R => a.priority ≤ b.priority)) :
    (insort c l).Sorted (fun a b : Converter R => a.priority ≤ b.priority) := by
  induction l with
  | nil => simp [insort]
  | cons b t ih =>
      rw [List.sorted_cons] at hl
      by_cases hcb : c.priority < b.priority
      · simp only [insort, if_pos hcb]
        rw [List.sorted_cons]
        refine ⟨?_, ?_⟩
        · intro x hx
          rcases List.mem_cons.mp hx with rfl | hx
          · exact le_of_lt hcb
          · exact le_trans (le_of_lt hcb) (hl.1 x hx)
        · rw [List.sorted_cons]
          exact hl
      · simp only [insort, if_neg hcb]
        rw [List.sorted_cons]
        refine ⟨?_, ih hl.2⟩
        intro x hx
        rcases mem_insort.mp hx with rfl | hx
        · omega
        · exact hl.1 x hx

theorem registerAll_sorted_aux {R : Type} (cs : List (Converter R)) :
    ∀ l : List (Converter R),
      l.Sorted (fun a b : Converter R => a.priority ≤ b.priority) →
      (cs.foldl (fun l c => insort c l) l).Sorted
        (fun a b : Converter R => a.priority ≤ b.priority) := by
  induction cs with
  | nil => intro l hl; exact hl
  | cons c cs ih => intro l hl; exact ih _ (insort_sorted c hl)

theorem registerAll_sorted {R : Type} (cs : List (Converter R)) :
    (registerAll cs).Sorted (fun a b : Converter R => a.priority ≤ b.priority) :=
  registerAll_sorted_aux cs [] (by simp)

theorem mem_registerAll {R : Type} {x : Converter R} {cs : List (Converter R)} :
    x ∈ registerAll cs ↔ x ∈ cs := by
  have : ∀ l : List (Converter R),
      (x ∈ cs.foldl (fun l c => insort c l) l ↔ x ∈ cs ∨ x ∈ l) := by
    induction cs with
    | nil => intro l; simp
    | cons c cs ih =>
        intro l
        simp only [List.foldl_cons, ih, mem_insort, List.mem_cons]
        tauto
  simpa using this []

theorem selectConverter_cons {R : Type} (b : Converter R) (t : List (Converter R))
    (v : Val) (h : Hints) :
    selectConverter (b :: t) v h =
      (selectConverter t v h).or (if b.predicate v h then some b else none) := by
  simp only [selectConverter, List.reverse_cons, List.find?_append]
  congr 1
  cases hpb : b.predicate v h <;> simp [List.find?, hpb]

theorem selectConverter_mem {R : Type} {l : List (Converter R)} {v : Val} {h : Hints}
    {c : Converter R} (hs : selectConverter l v h = some c) :
    c ∈ l ∧ c.predicate v h = true := by
  unfold selectConverter at hs
  have h1 := List.mem_of_find?_eq_some hs
  have h2 := List.find?_some hs
  exact ⟨List.mem_reverse.mp h1, h2⟩

theorem selectConverter_isSome {R : Type} {l : List (Converter R)} {v : Val} {h : Hints}
    {c : Converter R} (hc : c ∈ l) (hp : c.predicate v h = true) :
    (selectConverter l v h).isSome := by
  rw [selectConverter, List.find?_isSome]
  exact ⟨c, List.mem_reverse.mpr hc, hp⟩

/-- How one insort interacts with the scan, on a priority-sorted registry:
if the new converter accepts the value, it is selected unless an accepting
converter of strictly higher priority already existed; otherwise the
selection is unchanged. -/
theorem selectConverter_insort {R : Type} (c : Converter R) (v : Val) (h : Hints)
    {l : List (Converter R)}
    (hl : l.Sorted (fun a b : Converter R => a.priority ≤ b.priority)) :
    selectConverter (insort c l) v h =
      if c.predicate v h then
        match selectConverter l v h with
        | some b => if c.priority < b.priority then some b else some c
        | none => some c
      else selectConverter l v h := by
  induction l with
  | nil =>
      simp only [insort, selectConverter, List.reverse_cons, List.reverse_nil,
        List.nil_append, List.find?]
      cases hpc : c.predicate v h <;> simp [hpc]
  | cons b t ih =>
      rw [List.sorted_cons] at hl
      by_cases hcb : c.priority < b.priority
      · rw [show insort c (b :: t) = c :: b :: t by simp [insort, hcb]]
        rw [selectConverter_cons c (b :: t) v h]
        cases hS : selectConverter (b :: t) v h with
        | some x =>
            have hx := (selectConverter_mem hS).1
            have hcx : c.priority < x.priority := by
              rcases List.mem_cons.mp hx with rfl | hx
              · exact hcb
              · exact lt_of_lt_of_le hcb (hl.1 x hx)
            cases hpc : c.predicate v h <;>
              simp [hS, hpc, Option.or, hcx]
        | none =>
            cases hpc : c.predicate v h <;> simp [hS, hpc, Option.or]
      · rw [show insort c (b :: t) = b :: insort c t by simp [insort, hcb]]
        rw [selectConverter_cons b (insort c t) v h, ih hl.2,
          selectConverter_cons b t v h]
        cases hpc : c.predicate v h
        · simp
        · simp only [if_pos rfl]
          cases hT : selectConverter t v h with
          | some x =>
              simp only [if_pos rfl]
              cases hcx : decide (c.priority < x.priority) with
              | true =>
                  simp [of_decide_eq_true hcx, Option.or]
              | false =>
                  simp [of_decide_eq_false hcx, Option.or]
          | none =>
              simp only [Option.or]
              cases hpb : b.predicate v h
              · simp
              · simp only [if_pos rfl]
                have : ¬c.priority < b.priority := hcb
                simp [this]

/-- Refinement of the dispatch policy: scanning the insort-maintained registry
from the end selects exactly the rule the spec describes — the
highest-priority accepting rule, later registrations winning ties. -/
theorem selectConverter_eq_pickSpec {R : Type} (cs : List (Converter R)) (v : Val)
    (h : Hints) : selectConverter (registerAll cs) v h = pickSpec cs v h := by
  induction cs using List.reverseRecOn with
  | nil => rfl
  | append_singleton cs c ih =>
      have hreg : registerAll (cs ++ [c]) = insort c (registerAll cs) := by
        simp [registerAll, List.foldl_append]
      have hps : pickSpec (cs ++ [c]) v h =
          (if c.predicate v h then
            match pickSpec cs v h with
            | none => some c
            | some b => if b.priority ≤ c.priority then some c else some b
          else pickSpec cs v h) := by
        simp only [pickSpec, List.foldl_append, List.foldl_cons, List.foldl_nil]
      rw [hreg, selectConverter_insort c v h (registerAll_sorted cs), ih, hps]
      cases hpc : c.predicate v h
      · simp
      · cases hP : pickSpec cs v h with
        | none => simp
        | some b =>
            by_cases hcb : c.priority < b.priority
            · simp [hcb, show ¬b.priority ≤ c.priority by omega]
            · simp [hcb, show b.priority ≤ c.priority by omega]

/-! ## Numeric bounds -/

/-- java.lang.Byte.MIN_VALUE. -/
def byteMinValue : Int := -128

/-- java.lang.Byte.MAX_VALUE. -/
def byteMaxValue : Int := 127

/-- java.lang.Short.MIN_VALUE. -/
def shortMinValue : Int := -32768

/-- java.lang.Short.MAX_VALUE. -/
def shortMaxValue : Int := 32767

/-- java.lang.Integer.MIN_VALUE. -/
def intMinValue : Int := -(2 ^ 31)

/-- java.lang.Integer.MAX_VALUE. -/
def intMaxValue : Int := 2 ^ 31 - 1

/-- java.lang.Long.MIN_VALUE. -/
def longMinValue : Int := -(2 ^ 63)

/-- java.lang.Long.MAX_VALUE. -/
def longMaxValue : Int := 2 ^ 63 - 1

/-! ## Hint helpers and value projections -/

/-- The test: "type" in hints and hints["type"] in names. -/
def hintIn (h : Hints) (names : List String) : Bool :=
  match h with
  | some t => names.contains t
  | none => false

/-- The test: "type" not in hints or hints["type"] in names. -/
def hintNoneOr (h : Hints) (names : List String) : Bool :=
  match h with
  | none => true
  | some t => names.contains t

/-- The numeric value of a Python int (booleans count as 0 / 1, as in
Python).  Only consulted under an isPyInt guard; other values give 0. -/
def pyIntVal : Val → Int
  | .vint i => i
  | .vbool b => if b then 1 else 0
  | _ => 0

/-- The float value of a Python float.  Only consulted under an isPyFloat
guard; other values give NaN. -/
def pyFloatVal : Val → PFloat
  | .vfloat x => x
  | _ => .nan

/-! ## Action tags

Each stock converter's action is identified by a tag; the interpreters
applyJavaAction / applyPyAction below give the tags their meaning.  The
recursive structural actions (_convertMap, _convertSet, _convertIterable)
are part of the mutual definition of to_java. -/

inductive JavaAction where
  | raiseTypeError
  | noneToNone
  | javaIdentity
  | strToString
  | boolToBoolean
  | intToByte
  | intToShort
  | intToInteger
  | intToLong
  | intToBigInteger
  | floatToFloat
  | floatToDouble
  | floatToBigDecimal
  | pathToPath
  | dataframeToTable
  | mapToMap
  | setToSet
  | iterableToList
  deriving DecidableEq

inductive PyAction where
  | raiseTypeError
  | pyIdentity
  | booleanToBool
  | byteToInt
  | characterToStr
  | doubleToFloat
  | floatToFloat
  | integerToInt
  | longToInt
  | shortToInt
  | stringToStr
  | bigIntegerToInt
  | bigDecimalToFloat
  | listToJavaList
  | mapToJavaMap
  | setToJavaSet
  | collectionToJavaCollection
  | iterableToJavaIterable
  | iteratorToJavaIterator
  | pathToPyPath
  | jarrayToList
  | jprimBooleanToBool
  | jprimIntToInt
  | jprimFloatToFloat
  | jprimCharToStr
  deriving DecidableEq

/-! ## The stock Python-to-Java converters

One definition per entry of _stock_java_converters, in source order, with the
source's predicate, priority and name. -/

/-- The fallback: predicate always true, action raises TypeError. -/
def javaConvRaise : Converter JavaAction where
  predicate := fun _ _ => true
  converter := .raiseTypeError
  priority := Priority.EXTREMELY_LOW - 1
  name := "Other (Exceptional) converter"

def javaConvNone : Converter JavaAction where
  predicate := fun v _ => match v with | .vnone => true | _ => false
  converter := .noneToNone
  priority := Priority.EXTREMELY_HIGH + 1
  name := "None -> None"

def javaConvIdentity : Converter JavaAction where
  predicate := fun v _ => isjava v
  converter := .javaIdentity
  priority := Priority.EXTREMELY_HIGH
  name := "Java object identity"

def javaConvStr : Converter JavaAction where
  predicate := fun v _ => isPyStr v
  converter := .strToString
  priority := Priority.NORMAL
  name := "str -> java.lang.String"

/-- Higher priority than the int converters because bool extends int. -/
def javaConvBool : Converter JavaAction where
  predicate := fun v _ => isPyBool v
  converter := .boolToBoolean
  priority := Priority.NORMAL + 1
  name := "bool -> java.lang.Boolean"

def javaConvByte : Converter JavaAction where
  predicate := fun v h =>
    isPyInt v && hintIn h ["b", "byte", "Byte"] &&
      decide (byteMinValue ≤ pyIntVal v) && decide (pyIntVal v ≤ byteMaxValue)
  converter := .intToByte
  priority := Priority.HIGH
  name := "int -> java.lang.Byte"

def javaConvShort : Converter JavaAction where
  predicate := fun v h =>
    isPyInt v && hintIn h ["s", "short", "Short"] &&
      decide (shortMinValue ≤ pyIntVal v) && decide (pyIntVal v ≤ shortMaxValue)
  converter := .intToShort
  priority := Priority.HIGH
  name := "int -> java.lang.Short"

def javaConvInt : Converter JavaAction where
  predicate := fun v h =>
    isPyInt v && hintNoneOr h ["i", "int", "Integer"] &&
      decide (intMinValue ≤ pyIntVal v) && decide (pyIntVal v ≤ intMaxValue)
  converter := .intToInteger
  priority := Priority.NORMAL
  name := "int -> java.lang.Integer"

def javaConvLong : Converter JavaAction where
  predicate := fun v h =>
    isPyInt v && hintNoneOr h ["j", "l", "long", "Long"] &&
      decide (longMinValue ≤ pyIntVal v) && decide (pyIntVal v ≤ longMaxValue)
  converter := .intToLong
  priority := Priority.NORMAL - 1
  name := "int -> java.lang.Long"

def javaConvBigInteger : Converter JavaAction where
  predicate := fun v h => isPyInt v && hintNoneOr h ["bi", "bigint", "BigInteger"]
  converter := .intToBigInteger
  priority := Priority.NORMAL - 2
  name := "int -> java.math.BigInteger"

/-- Infinities and NaN are accepted explicitly, besides the range check. -/
def javaConvFloat : Converter JavaAction where
  predicate := fun v h =>
    isPyFloat v && hintNoneOr h ["f", "float", "Float"] &&
      ((pyFloatVal v).isinf || (pyFloatVal v).isnan ||
        (pfLe (.finite (-floatMaxValue)) (pyFloatVal v) &&
          pfLe (pyFloatVal v) (.finite floatMaxValue)))
  converter := .floatToFloat
  priority := Priority.NORMAL
  name := "float -> java.lang.Float"

def javaConvDouble : Converter JavaAction where
  predicate := fun v h =>
    isPyFloat v && hintNoneOr h ["d", "double", "Double"] &&
      ((pyFloatVal v).isinf || (pyFloatVal v).isnan ||
        (pfLe (.finite (-doubleMaxValue)) (pyFloatVal v) &&
          pfLe (pyFloatVal v) (.finite doubleMaxValue)))
  converter := .floatToDouble
  priority := Priority.NORMAL - 1
  name := "float -> java.lang.Double"

def javaConvBigDecimal : Converter JavaAction where
  predicate := fun v h => isPyFloat v && hintNoneOr h ["bd", "bigdec", "BigDecimal"]
  converter := .floatToBigDecimal
  priority := Priority.NORMAL - 2
  name := "float -> java.math.BigDecimal"

def javaConvPath : Converter JavaAction where
  predicate := fun v _ => isPyPath v
  converter := .pathToPath
  priority := Priority.NORMAL + 1
  name := "pathlib.Path -> java.nio.file.Path"

/-- Duck-typed pandas rule; no modeled value has class name DataFrame, and
pandas-to-table conversion is outside the modeled fragment. -/
def javaConvDataFrame : Converter JavaAction where
  predicate := fun v _ => isDataFrame v
  converter := .dataframeToTable
  priority := Priority.NORMAL + 1
  name := "pandas.DataFrame -> org.scijava.table.Table"

def javaConvMapping : Converter JavaAction where
  predicate := fun v _ => isPyMapping v
  converter := .mapToMap
  priority := Priority.NORMAL
  name := "collections.abc.Mapping -> java.util.Map"

def javaConvSet : Converter JavaAction where
  predicate := fun v _ => isPySet v
  converter := .setToSet
  priority := Priority.NORMAL
  name := "collections.abc.Set -> java.util.Set"

def javaConvIterable : Converter JavaAction where
  predicate := fun v _ => isPyIterable v
  converter := .iterableToList
  priority := Priority.NORMAL - 1
  name := "collections.abc.Iterable -> java.util.Iterable"

/-- The list returned by _stock_java_converters, in source order. -/
def stockJavaConverters : List (Converter JavaAction) :=
  [javaConvRaise, javaConvNone, javaConvIdentity, javaConvStr, javaConvBool,
   javaConvByte, javaConvShort, javaConvInt, javaConvLong, javaConvBigInteger,
   javaConvFloat, javaConvDouble, javaConvBigDecimal, javaConvPath,
   javaConvDataFrame, javaConvMapping, javaConvSet, javaConvIterable]

/-- The java_converters registry right after _initialize_converters has fed
the stock converters to add_java_converter. -/
def javaConverters : List (Converter JavaAction) := registerAll stockJavaConverters

/-! ## The stock Java-to-Python converters

One definition per entry of _stock_py_converters, in source order.  Two
environment-dependent groups need comment:

* the pandas table converter is appended only when pandas imports; no modeled
  value is an org.scijava.table.Table instance, so its predicate is false on
  every modeled value either way, and it is omitted here;
* the four JPype-mode converters for raw primitive wrappers (JBoolean,
  JByte/JInt/JLong/JShort, JDouble/JFloat, JChar) are included; no modeled
  value is a raw JPype primitive (JPype auto-converts primitive returns), so
  their isinstance predicates are false on every modeled value — likewise the
  numpy primitive-array converter is omitted along with Java arrays. -/

def pyConvRaise : Converter PyAction where
  predicate := fun _ _ => true
  converter := .raiseTypeError
  priority := Priority.EXTREMELY_LOW - 1
  name := "Other (Exceptional) converter"

def pyConvIdentity : Converter PyAction where
  predicate := fun v _ => !isjava v
  converter := .pyIdentity
  priority := Priority.EXTREMELY_HIGH
  name := "Python object identity"

def pyConvBoolean : Converter PyAction where
  predicate := fun v _ => isJBoolean v
  converter := .booleanToBool
  priority := Priority.NORMAL
  name := "java.lang.Boolean -> bool"

def pyConvByte : Converter PyAction where
  predicate := fun v _ => isJByte v
  converter := .byteToInt
  priority := Priority.NORMAL
  name := "java.lang.Byte -> int"

def pyConvCharacter : Converter PyAction where
  predicate := fun v _ => isJCharacter v
  converter := .characterToStr
  priority := Priority.NORMAL
  name := "java.lang.Character -> str"

def pyConvDouble : Converter PyAction where
  predicate := fun v _ => isJDouble v
  converter := .doubleToFloat
  priority := Priority.NORMAL
  name := "java.lang.Double -> float"

def pyConvFloat : Converter PyAction where
  predicate := fun v _ => isJFloat v
  converter := .floatToFloat
  priority := Priority.NORMAL
  name := "java.lang.Float -> float"

def pyConvInteger : Converter PyAction where
  predicate := fun v _ => isJInteger v
  converter := .integerToInt
  priority := Priority.NORMAL
  name := "java.lang.Integer -> int"

def pyConvLong : Converter PyAction where
  predicate := fun v _ => isJLong v
  converter := .longToInt
  priority := Priority.NORMAL
  name := "java.lang.Long -> int"

def pyConvShort : Converter PyAction where
  predicate := fun v _ => isJShort v
  converter := .shortToInt
  priority := Priority.NORMAL
  name := "java.lang.Short -> int"

def pyConvString : Converter PyAction where
  predicate := fun v _ => isJString v
  converter := .stringToStr
  priority := Priority.NORMAL
  name := "java.lang.String -> str"

def pyConvBigInteger : Converter PyAction where
  predicate := fun v _ => isJBigInteger v
  converter := .bigIntegerToInt
  priority := Priority.NORMAL
  name := "java.math.BigInteger -> int"

def pyConvBigDecimal : Converter PyAction where
  predicate := fun v _ => isJBigDecimal v
  converter := .bigDecimalToFloat
  priority := Priority.NORMAL
  name := "java.math.BigDecimal -> float"

def pyConvList : Converter PyAction where
  predicate := fun v _ => isJList v
  converter := .listToJavaList
  priority := Priority.NORMAL
  name := "java.util.List -> scyjava.JavaList (list-like)"

def pyConvMap : Converter PyAction where
  predicate := fun v _ => isJMap v
  converter := .mapToJavaMap
  priority := Priority.NORMAL
  name := "java.util.Map -> scyjava.JavaMap (dict-like)"

def pyConvSet : Converter PyAction where
  predicate := fun v _ => isJSet v
  converter := .setToJavaSet
  priority := Priority.NORMAL
  name := "java.util.Set -> scyjava.JavaSet (set-like)"

def pyConvCollection : Converter PyAction where
  predicate := fun v _ => isJCollection v
  converter := .collectionToJavaCollection
  priority := Priority.NORMAL - 1
  name := "java.util.Collection -> scyjava.JavaCollection (collections.abc.Collection)"

def pyConvIterable : Converter PyAction where
  predicate := fun v _ => isJIterable v
  converter := .iterableToJavaIterable
  priority := Priority.NORMAL - 1
  name := "java.lang.Iterable -> scyjava.JavaIterable (collections.abc.Iterable)"

def pyConvIterator : Converter PyAction where
  predicate := fun v _ => isJIterator v
  converter := .iteratorToJavaIterator
  priority := Priority.NORMAL - 1
  name := "java.util.Iterator -> scyjava.JavaIterator (collections.abc.Iterator)"

def pyConvPath : Converter PyAction where
  predicate := fun v _ => isJPath v
  converter := .pathToPyPath
  priority := Priority.NORMAL + 1
  name := "java.nio.file.Path -> pathlib.Path"

def pyConvJArray : Converter PyAction where
  predicate := fun v _ => is_jarray v
  converter := .jarrayToList
  priority := Priority.VERY_LOW
  name := "jarray -> list"

def pyConvJPrimBoolean : Converter PyAction where
  predicate := fun _ _ => false
  converter := .jprimBooleanToBool
  priority := Priority.NORMAL + 1
  name := "JBoolean -> bool"

def pyConvJPrimInt : Converter PyAction where
  predicate := fun _ _ => false
  converter := .jprimIntToInt
  priority := Priority.NORMAL + 1
  name := "JByte/JInt/JLong/JShort -> int"

def pyConvJPrimFloat : Converter PyAction where
  predicate := fun _ _ => false
  converter := .jprimFloatToFloat
  priority := Priority.NORMAL + 1
  name := "JDouble/JFloat -> float"

def pyConvJPrimChar : Converter PyAction where
  predicate := fun _ _ => false
  converter := .jprimCharToStr
  priority := Priority.NORMAL + 1
  name := "JChar -> str"

/-- The list returned by _stock_py_converters, in source order. -/
def stockPyConverters : List (Converter PyAction) :=
  [pyConvRaise, pyConvIdentity, pyConvBoolean, pyConvByte, pyConvCharacter,
   pyConvDouble, pyConvFloat, pyConvInteger, pyConvLong, pyConvShort,
   pyConvString, pyConvBigInteger, pyConvBigDecimal, pyConvList, pyConvMap,
   pyConvSet, pyConvCollection, pyConvIterable, pyConvIterator, pyConvPath,
   pyConvJArray, pyConvJPrimBoolean, pyConvJPrimInt, pyConvJPrimFloat,
   pyConvJPrimChar]

/-- The py_converters registry right after _initialize_converters has fed the
stock converters to add_py_converter. -/
def pyConverters : List (Converter PyAction) := registerAll stockPyConverters

/-- Interpreter for the Java-to-Python actions.  The characterToStr case is
the source's converter=lambda obj: str — it ignores the object and returns
the builtin type object str itself (a slip for str(obj)); vbuiltinStr models
that type object.  Collection wrapping stores the wrapped Java contents in
the adapter constructors wlist/wmap/wset.  Actions marked unmodeled can be
reached by no modeled value (their rules are shadowed or their predicates are
false on every modeled value). -/
def applyPyAction : PyAction → Val → Except ConvErr Val
  | .raiseTypeError, v => .error (.typeError (unsupportedMsg v))
  | .pyIdentity, v => .ok v
  | .booleanToBool, v =>
      match v with
      | .jboolean b => .ok (.vbool b)
      | _ => .error (.unmodeled "booleanValue")
  | .byteToInt, v =>
      match v with
      | .jbyte i => .ok (.vint i)
      | _ => .error (.unmodeled "byteValue")
  | .characterToStr, _ => .ok .vbuiltinStr
  | .doubleToFloat, v =>
      match v with
      | .jdouble x => .ok (.vfloat x)
      | _ => .error (.unmodeled "doubleValue")
  | .floatToFloat, v =>
      match v with
      | .jfloat x => .ok (.vfloat x)
      | _ => .error (.unmodeled "floatValue")
  | .integerToInt, v =>
      match v with
      | .jinteger i => .ok (.vint i)
      | _ => .error (.unmodeled "intValue")
  | .longToInt, v =>
      match v with
      | .jlong i => .ok (.vint i)
      | _ => .error (.unmodeled "longValue")
  | .shortToInt, v =>
      match v with
      | .jshort i => .ok (.vint i)
      | _ => .error (.unmodeled "shortValue")
  | .stringToStr, v =>
      match v with
      | .jstring s => .ok (.vstr s)
      | _ => .error (.unmodeled "str of a non-String")
  | .bigIntegerToInt, v =>
      match v with
      | .jbigint s => .ok (.vint (parseDec s))
      | _ => .error (.unmodeled "int of str of a non-BigInteger")
  | .bigDecimalToFloat, v =>
      match v with
      | .jbigdec x => .ok (.vfloat x)
      | _ => .error (.unmodeled "float of str of a non-BigDecimal")
  | .listToJavaList, v =>
      match v with
      | .jlist xs => .ok (.wlist xs)
      | _ => .error (.unmodeled "JavaList of a non-List")
  | .mapToJavaMap, v =>
      match v with
      | .jmap kvs => .ok (.wmap kvs)
      | _ => .error (.unmodeled "JavaMap of a non-Map")
  | .setToJavaSet, v =>
      match v with
      | .jset xs => .ok (.wset xs)
      | _ => .error (.unmodeled "JavaSet of a non-Set")
  | .collectionToJavaCollection, _ => .error (.unmodeled "JavaCollection wrapper")
  | .iterableToJavaIterable, _ => .error (.unmodeled "JavaIterable wrapper")
  | .iteratorToJavaIterator, _ => .error (.unmodeled "JavaIterator wrapper")
  | .pathToPyPath, v =>
      match v with
      | .jpath s => .ok (.vpath s)
      | _ => .error (.unmodeled "Path of a non-Path")
  | .jarrayToList, _ => .error (.unmodeled "jarray conversion")
  | .jprimBooleanToBool, _ => .error (.unmodeled "raw JBoolean")
  | .jprimIntToInt, _ => .error (.unmodeled "raw JPype integer")
  | .jprimFloatToFloat, _ => .error (.unmodeled "raw JPype float")
  | .jprimCharToStr, _ => .error (.unmodeled "raw JChar")

/-- The dispatch _convert(data, py_converters): select by the reversed scan
and apply the selected action.  If no converter matched, _convert falls off
the for loop and Python returns None implicitly — modeled by the none branch
(provably dead, since the fallback always matches). -/
def toPythonDispatch (v : Val) : Except ConvErr Val :=
  match selectConverter pyConverters v none with
  | some c => applyPyAction c.converter v
  | none => .ok .vnone

/-- to_python(data, gentle=False): run the dispatch, and if it raised a
TypeError return the data unchanged when gentle is set, else re-raise. -/
def to_python (data : Val) (gentle : Bool) : Except ConvErr Val :=
  match toPythonDispatch data with
  | .ok r => .ok r
  | .error (.typeError msg) =>
      if gentle then .ok data else .error (.typeError msg)
  | .error e => .error e

/-- The value of a gentle to_python call, as used inside the adapters (gentle
reads never raise on modeled values; the fallback default is never taken). -/
def toPythonG (v : Val) : Val :=
  match to_python v true with
  | .ok r => r
  | .error _ => v

/-! ## The registries, explicitly

The insort-built registries, written out in ascending priority order with
equal-priority entries in registration order; both equalities hold by
computation, and make dispatch reasoning convenient. -/

theorem javaConverters_eq :
    javaConverters =
      [javaConvRaise, javaConvBigInteger, javaConvBigDecimal, javaConvLong,
       javaConvDouble, javaConvIterable, javaConvStr, javaConvInt,
       javaConvFloat, javaConvMapping, javaConvSet, javaConvBool, javaConvPath,
       javaConvDataFrame, javaConvByte, javaConvShort, javaConvIdentity,
       javaConvNone] := rfl

theorem pyConverters_eq :
    pyConverters =
      [pyConvRaise, pyConvJArray, pyConvCollection, pyConvIterable,
       pyConvIterator, pyConvBoolean, pyConvByte, pyConvCharacter,
       pyConvDouble, pyConvFloat, pyConvInteger, pyConvLong, pyConvShort,
       pyConvString, pyConvBigInteger, pyConvBigDecimal, pyConvList,
       pyConvMap, pyConvSet, pyConvPath, pyConvJPrimBoolean, pyConvJPrimInt,
       pyConvJPrimFloat, pyConvJPrimChar, pyConvIdentity] := rfl

/-! ## Recursive Python-to-Java conversion

to_java(obj, hints) with the stock registry.  The branches spell out, for
each value shape, the scan over javaConverters (highest priority first,
later-registered first among equal priorities) with each reachable rule's
predicate and action; theorem to_java_eq_dispatch below proves that this
agrees with selectConverter plus applyJavaAction on every value, so the
branch structure is exactly the dispatch.  Hints are not propagated to
element conversions (_convertMap and friends call to_java with defaults).

Converting an adapter façade back to Java (its rule is the Mapping / Set /
Iterable rule, via the adapter's inherited collections ABCs) iterates the
adapter, which re-enters to_python on each element; that re-entrant path is
outside the modeled fragment and yields an unmodeled-action error here.  No
claim exercises it. -/

/-- java.util.LinkedHashMap.put: if a key equal (Object.equals) to k is
present, replace its value in place, keeping the position and the original
key; otherwise append the new entry. -/
def lhmPut (m : List (Val × Val)) (k v : Val) : List (Val × Val) :=
  if m.any (fun q => veq q.1 k) then
    m.map (fun q => if veq q.1 k then (q.1, v) else q)
  else m ++ [(k, v)]

/-- java.util.LinkedHashSet.add: append unless an equal element is present. -/
def lhsAdd (s : List Val) (x : Val) : List Val :=
  if s.any (fun y => veq y x) then s else s ++ [x]

mutual
/-- Recursively convert a Python object to a Java object (to_java). -/
def to_java : Val → Hints → Except ConvErr Val
  | .vnone, _ => .ok .vnone
  | .vbool b, h =>
      if hintIn h ["s", "short", "Short"] &&
          decide (shortMinValue ≤ pyIntVal (.vbool b)) &&
          decide (pyIntVal (.vbool b) ≤ shortMaxValue) then
        .ok (.jshort (pyIntVal (.vbool b)))
      else if hintIn h ["b", "byte", "Byte"] &&
          decide (byteMinValue ≤ pyIntVal (.vbool b)) &&
          decide (pyIntVal (.vbool b) ≤ byteMaxValue) then
        .ok (.jbyte (pyIntVal (.vbool b)))
      else .ok (.jboolean b)
  | .vint i, h =>
      if hintIn h ["s", "short", "Short"] && decide (shortMinValue ≤ i) &&
          decide (i ≤ shortMaxValue) then
        .ok (.jshort i)
      else if hintIn h ["b", "byte", "Byte"] && decide (byteMinValue ≤ i) &&
          decide (i ≤ byteMaxValue) then
        .ok (.jbyte i)
      else if hintNoneOr h ["i", "int", "Integer"] && decide (intMinValue ≤ i) &&
          decide (i ≤ intMaxValue) then
        .ok (.jinteger i)
      else if hintNoneOr h ["j", "l", "long", "Long"] && decide (longMinValue ≤ i) &&
          decide (i ≤ longMaxValue) then
        .ok (.jlong i)
      else if hintNoneOr h ["bi", "bigint", "BigInteger"] then
        .ok (.jbigint (decStr i))
      else .error (.typeError (unsupportedMsg (.vint i)))
  | .vfloat x, h =>
      if hintNoneOr h ["f", "float", "Float"] &&
          (x.isinf || x.isnan ||
            (pfLe (.finite (-floatMaxValue)) x && pfLe x (.finite floatMaxValue))) then
        .ok (.jfloat x)
      else if hintNoneOr h ["d", "double", "Double"] &&
          (x.isinf || x.isnan ||
            (pfLe (.finite (-doubleMaxValue)) x && pfLe x (.finite doubleMaxValue))) then
        .ok (.jdouble x)
      else if hintNoneOr h ["bd", "bigdec", "BigDecimal"] then
        .ok (.jbigdec x)
      else .error (.typeError (unsupportedMsg (.vfloat x)))
  | .vstr s, _ => .ok (.jstring s)
  | .vpath s, _ => .ok (.jpath s)
  | .vlist xs, _ => do .ok (.jlist (← to_java_listElems xs))
  | .vset xs, _ => do .ok (.jset (← to_java_setElems xs []))
  | .vdict kvs, _ => do .ok (.jmap (← to_java_mapItems kvs []))
  | .vbuiltinStr, _ => .error (.typeError (unsupportedMsg .vbuiltinStr))
  | .jboolean b, _ => .ok (.jboolean b)
  | .jcharacter c, _ => .ok (.jcharacter c)
  | .jbyte i, _ => .ok (.jbyte i)
  | .jshort i, _ => .ok (.jshort i)
  | .jinteger i, _ => .ok (.jinteger i)
  | .jlong i, _ => .ok (.jlong i)
  | .jbigint s, _ => .ok (.jbigint s)
  | .jfloat x, _ => .ok (.jfloat x)
  | .jdouble x, _ => .ok (.jdouble x)
  | .jbigdec x, _ => .ok (.jbigdec x)
  | .jstring s, _ => .ok (.jstring s)
  | .jpath s, _ => .ok (.jpath s)
  | .jlist xs, _ => .ok (.jlist xs)
  | .jset xs, _ => .ok (.jset xs)
  | .jmap kvs, _ => .ok (.jmap kvs)
  | .jforeign cls, _ => .ok (.jforeign cls)
  | .wlist _, _ => .error (.unmodeled "Iterable elements of an adapter")
  | .wset _, _ => .error (.unmodeled "Set elements of an adapter")
  | .wmap _, _ => .error (.unmodeled "Mapping items of an adapter")

/-- The loop of _convertIterable: convert each element (default hints) and
add it to a fresh ArrayList. -/
def to_java_listElems : List Val → Except ConvErr (List Val)
  | [] => .ok []
  | x :: rest => do
      let jx ← to_java x none
      let jrest ← to_java_listElems rest
      .ok (jx :: jrest)

/-- The loop of _convertSet: convert each element and add it to a fresh
LinkedHashSet (deduplicating by Object.equals). -/
def to_java_setElems : List Val → List Val → Except ConvErr (List Val)
  | [], acc => .ok acc
  | x :: rest, acc => do
      let jx ← to_java x none
      to_java_setElems rest (lhsAdd acc jx)

/-- The loop of _convertMap: convert each key and value and put them into a
fresh LinkedHashMap. -/
def to_java_mapItems : List (Val × Val) → List (Val × Val) →
    Except ConvErr (List (Val × Val))
  | [], acc => .ok acc
  | (k, v) :: rest, acc => do
      let jk ← to_java k none
      let jv ← to_java v none
      to_java_mapItems rest (lhmPut acc jk jv)
end

/-- Interpreter for the Python-to-Java actions, with to_java supplying the
recursion of the structural conversions.  Each catch-all arm covers value
shapes the corresponding rule is never selected on (or whose conversion is
outside the modeled fragment, for the adapter re-conversion paths). -/
def applyJavaAction : JavaAction → Val → Except ConvErr Val
  | .raiseTypeError, v => .error (.typeError (unsupportedMsg v))
  | .noneToNone, _ => .ok .vnone
  | .javaIdentity, v => .ok v
  | .strToString, v =>
      match v with
      | .vstr s => .ok (.jstring s)
      | _ => .error (.unmodeled "encode on a non-str")
  | .boolToBoolean, v =>
      match v with
      | .vbool b => .ok (.jboolean b)
      | _ => .error (.unmodeled "Boolean of a non-bool")
  | .intToByte, v =>
      match v with
      | .vint i => .ok (.jbyte i)
      | .vbool b => .ok (.jbyte (pyIntVal (.vbool b)))
      | _ => .error (.unmodeled "Byte of a non-int")
  | .intToShort, v =>
      match v with
      | .vint i => .ok (.jshort i)
      | .vbool b => .ok (.jshort (pyIntVal (.vbool b)))
      | _ => .error (.unmodeled "Short of a non-int")
  | .intToInteger, v =>
      match v with
      | .vint i => .ok (.jinteger i)
      | .vbool b => .ok (.jinteger (pyIntVal (.vbool b)))
      | _ => .error (.unmodeled "Integer of a non-int")
  | .intToLong, v =>
      match v with
      | .vint i => .ok (.jlong i)
      | .vbool b => .ok (.jlong (pyIntVal (.vbool b)))
      | _ => .error (.unmodeled "Long of a non-int")
  | .intToBigInteger, v =>
      match v with
      | .vint i => .ok (.jbigint (decStr i))
      | .vbool b => .ok (.jbigint (decStr (pyIntVal (.vbool b))))
      | _ => .error (.unmodeled "BigInteger of a non-int")
  | .floatToFloat, v =>
      match v with
      | .vfloat x => .ok (.jfloat x)
      | _ => .error (.unmodeled "Float of a non-float")
  | .floatToDouble, v =>
      match v with
      | .vfloat x => .ok (.jdouble x)
      | _ => .error (.unmodeled "Double of a non-float")
  | .floatToBigDecimal, v =>
      match v with
      | .vfloat x => .ok (.jbigdec x)
      | _ => .error (.unmodeled "BigDecimal of a non-float")
  | .pathToPath, v =>
      match v with
      | .vpath s => .ok (.jpath s)
      | _ => .error (.unmodeled "Paths.get of a non-Path")
  | .dataframeToTable, _ => .error (.unmodeled "pandas table conversion")
  | .mapToMap, v =>
      match v with
      | .vdict kvs => do .ok (.jmap (← to_java_mapItems kvs []))
      | .wmap _ => .error (.unmodeled "Mapping items of an adapter")
      | _ => .error (.unmodeled "items of a non-Mapping")
  | .setToSet, v =>
      match v with
      | .vset xs => do .ok (.jset (← to_java_setElems xs []))
      | .wset _ => .error (.unmodeled "Set elements of an adapter")
      | _ => .error (.unmodeled "elements of a non-Set")
  | .iterableToList, v =>
      match v with
      | .vlist xs => do .ok (.jlist (← to_java_listElems xs))
      | .wlist _ => .error (.unmodeled "Iterable elements of an adapter")
      | _ => .error (.unmodeled "elements of a non-Iterable")

/-- The result of _convert(obj, java_converters, hints): apply the selected
converter, or (the provably dead branch) fall off the loop returning None. -/
def toJavaDispatch (v : Val) (h : Hints) : Except ConvErr Val :=
  match selectConverter javaConverters v h with
  | some c => applyJavaAction c.converter v
  | none => .ok .vnone

/-- The registry scan on a Python bool: the hint-gated Short and Byte rules
(HIGH) can still fire because bool is an int subtype; otherwise the Boolean
rule (NORMAL+1) wins. -/
theorem selJava_vbool (b : Bool) (h : Hints) :
    selectConverter javaConverters (.vbool b) h =
      if hintIn h ["s", "short", "Short"] &&
          decide (shortMinValue ≤ pyIntVal (.vbool b)) &&
          decide (pyIntVal (.vbool b) ≤ shortMaxValue) then some javaConvShort
      else if hintIn h ["b", "byte", "Byte"] &&
          decide (byteMinValue ≤ pyIntVal (.vbool b)) &&
          decide (pyIntVal (.vbool b) ≤ byteMaxValue) then some javaConvByte
      else some javaConvBool := by
  have e : selectConverter javaConverters (.vbool b) h =
      List.find? (fun c => c.predicate (.vbool b) h)
        [javaConvNone, javaConvIdentity, javaConvShort, javaConvByte,
         javaConvDataFrame, javaConvPath, javaConvBool, javaConvSet,
         javaConvMapping, javaConvFloat, javaConvInt, javaConvStr,
         javaConvIterable, javaConvDouble, javaConvLong, javaConvBigDecimal,
         javaConvBigInteger, javaConvRaise] := rfl
  rw [e]
  simp only [List.find?, javaConvNone, javaConvIdentity, javaConvShort,
    javaConvByte, javaConvDataFrame, javaConvPath, javaConvBool, isjava,
    isPyInt, isPyBool, isDataFrame, isPyPath, Bool.true_and, Bool.false_and]
  by_cases h1 : (hintIn h ["s", "short", "Short"] &&
      decide (shortMinValue ≤ pyIntVal (.vbool b)) &&
      decide (pyIntVal (.vbool b) ≤ shortMaxValue)) = true
  · simp [h1]
  · rw [Bool.not_eq_true] at h1
    simp only [h1]
    by_cases h2 : (hintIn h ["b", "byte", "Byte"] &&
        decide (byteMinValue ≤ pyIntVal (.vbool b)) &&
        decide (pyIntVal (.vbool b) ≤ byteMaxValue)) = true
    · simp [h2]
    · rw [Bool.not_eq_true] at h2
      simp [h1, h2]

/-- The registry scan on a Python int: Short and Byte (HIGH, hint-gated,
later-registered Short scanned first), then Integer, Long, BigInteger in
decreasing priority, then the fallback. -/
theorem selJava_vint (i : Int) (h : Hints) :
    selectConverter javaConverters (.vint i) h =
      if hintIn h ["s", "short", "Short"] && decide (shortMinValue ≤ i) &&
          decide (i ≤ shortMaxValue) then some javaConvShort
      else if hintIn h ["b", "byte", "Byte"] && decide (byteMinValue ≤ i) &&
          decide (i ≤ byteMaxValue) then some javaConvByte
      else if hintNoneOr h ["i", "int", "Integer"] && decide (intMinValue ≤ i) &&
          decide (i ≤ intMaxValue) then some javaConvInt
      else if hintNoneOr h ["j", "l", "long", "Long"] && decide (longMinValue ≤ i) &&
          decide (i ≤ longMaxValue) then some javaConvLong
      else if hintNoneOr h ["bi", "bigint", "BigInteger"] then some javaConvBigInteger
      else some javaConvRaise := by
  have e : selectConverter javaConverters (.vint i) h =
      List.find? (fun c => c.predicate (.vint i) h)
        [javaConvNone, javaConvIdentity, javaConvShort, javaConvByte,
         javaConvDataFrame, javaConvPath, javaConvBool, javaConvSet,
         javaConvMapping, javaConvFloat, javaConvInt, javaConvStr,
         javaConvIterable, javaConvDouble, javaConvLong, javaConvBigDecimal,
         javaConvBigInteger, javaConvRaise] := rfl
  rw [e]
  simp only [List.find?, javaConvNone, javaConvIdentity, javaConvShort,
    javaConvByte, javaConvDataFrame, javaConvPath, javaConvBool, javaConvSet,
    javaConvMapping, javaConvFloat, javaConvInt, javaConvStr, javaConvIterable,
    javaConvDouble, javaConvLong, javaConvBigDecimal, javaConvBigInteger,
    javaConvRaise, isjava, isPyInt, isPyBool, isDataFrame, isPyPath, isPySet,
    isPyMapping, isPyFloat, isPyStr, isPyIterable, pyIntVal, pyFloatVal,
    Bool.true_and, Bool.false_and]
  by_cases h1 : (hintIn h ["s", "short", "Short"] && decide (shortMinValue ≤ i) &&
      decide (i ≤ shortMaxValue)) = true
  · simp [h1]
  · rw [Bool.not_eq_true] at h1
    simp only [h1]
    by_cases h2 : (hintIn h ["b", "byte", "Byte"] && decide (byteMinValue ≤ i) &&
        decide (i ≤ byteMaxValue)) = true
    · simp [h2]
    · rw [Bool.not_eq_true] at h2
      simp only [h2]
      by_cases h3 : (hintNoneOr h ["i", "int", "Integer"] &&
          decide (intMinValue ≤ i) && decide (i ≤ intMaxValue)) = true
      · simp [h3]
      · rw [Bool.not_eq_true] at h3
        simp only [h3]
        by_cases h4 : (hintNoneOr h ["j", "l", "long", "Long"] &&
            decide (longMinValue ≤ i) && decide (i ≤ longMaxValue)) = true
        · simp [h4]
        · rw [Bool.not_eq_true] at h4
          simp only [h4]
          by_cases h5 : (hintNoneOr h ["bi", "bigint", "BigInteger"]) = true
          · simp [h5]
          · rw [Bool.not_eq_true] at h5
            simp [h1, h2, h3, h4, h5]

/-- The registry scan on a Python float: Float, Double, BigDecimal in
decreasing priority, then the fallback. -/
theorem selJava_vfloat (x : PFloat) (h : Hints) :
    selectConverter javaConverters (.vfloat x) h =
      if hintNoneOr h ["f", "float", "Float"] &&
          (x.isinf || x.isnan ||
            (pfLe (.finite (-floatMaxValue)) x && pfLe x (.finite floatMaxValue))) then
        some javaConvFloat
      else if hintNoneOr h ["d", "double", "Double"] &&
          (x.isinf || x.isnan ||
            (pfLe (.finite (-doubleMaxValue)) x && pfLe x (.finite doubleMaxValue))) then
        some javaConvDouble
      else if hintNoneOr h ["bd", "bigdec", "BigDecimal"] then some javaConvBigDecimal
      else some javaConvRaise := by
  have e : selectConverter javaConverters (.vfloat x) h =
      List.find? (fun c => c.predicate (.vfloat x) h)
        [javaConvNone, javaConvIdentity, javaConvShort, javaConvByte,
         javaConvDataFrame, javaConvPath, javaConvBool, javaConvSet,
         javaConvMapping, javaConvFloat, javaConvInt, javaConvStr,
         javaConvIterable, javaConvDouble, javaConvLong, javaConvBigDecimal,
         javaConvBigInteger, javaConvRaise] := rfl
  rw [e]
  simp only [List.find?, javaConvNone, javaConvIdentity, javaConvShort,
    javaConvByte, javaConvDataFrame, javaConvPath, javaConvBool, javaConvSet,
    javaConvMapping, javaConvFloat, javaConvInt, javaConvStr, javaConvIterable,
    javaConvDouble, javaConvLong, javaConvBigDecimal, javaConvBigInteger,
    javaConvRaise, isjava, isPyInt, isPyBool, isDataFrame, isPyPath, isPySet,
    isPyMapping, isPyFloat, isPyStr, isPyIterable, pyIntVal, pyFloatVal,
    Bool.true_and, Bool.false_and]
  by_cases h1 : (hintNoneOr h ["f", "float", "Float"] &&
      (x.isinf || x.isnan ||
        (pfLe (.finite (-floatMaxValue)) x && pfLe x (.finite floatMaxValue)))) = true
  · simp [h1]
  · rw [Bool.not_eq_true] at h1
    simp only [h1]
    by_cases h2 : (hintNoneOr h ["d", "double", "Double"] &&
        (x.isinf || x.isnan ||
          (pfLe (.finite (-doubleMaxValue)) x && pfLe x (.finite doubleMaxValue)))) = true
    · simp [h2]
    · rw [Bool.not_eq_true] at h2
      simp only [h2]
      by_cases h3 : (hintNoneOr h ["bd", "bigdec", "BigDecimal"]) = true
      · simp [h3]
      · rw [Bool.not_eq_true] at h3
        simp [h1, h2, h3]

/-- The structural to_java definition agrees, on every value and hints, with
the engine dispatch over the insort-built stock registry: to_java is
_convert(obj, java_converters, hints). -/
theorem to_java_eq_dispatch (v : Val) (h : Hints) : to_java v h = toJavaDispatch v h := by
  cases v with
  | vbool b =>
      rw [toJavaDispatch, selJava_vbool]
      by_cases h1 : (hintIn h ["s", "short", "Short"] &&
          decide (shortMinValue ≤ pyIntVal (.vbool b)) &&
          decide (pyIntVal (.vbool b) ≤ shortMaxValue)) = true
      · simp [to_java, h1, applyJavaAction, javaConvRaise, javaConvNone, javaConvIdentity, javaConvStr, javaConvBool, javaConvByte, javaConvShort, javaConvInt, javaConvLong, javaConvBigInteger, javaConvFloat, javaConvDouble, javaConvBigDecimal]
      · rw [Bool.not_eq_true] at h1
        by_cases h2 : (hintIn h ["b", "byte", "Byte"] &&
            decide (byteMinValue ≤ pyIntVal (.vbool b)) &&
            decide (pyIntVal (.vbool b) ≤ byteMaxValue)) = true
        · simp [to_java, h1, h2, applyJavaAction, javaConvRaise, javaConvNone, javaConvIdentity, javaConvStr, javaConvBool, javaConvByte, javaConvShort, javaConvInt, javaConvLong, javaConvBigInteger, javaConvFloat, javaConvDouble, javaConvBigDecimal]
        · rw [Bool.not_eq_true] at h2
          simp [to_java, h1, h2, applyJavaAction, javaConvRaise, javaConvNone, javaConvIdentity, javaConvStr, javaConvBool, javaConvByte, javaConvShort, javaConvInt, javaConvLong, javaConvBigInteger, javaConvFloat, javaConvDouble, javaConvBigDecimal]
  | vint i =>
      rw [toJavaDispatch, selJava_vint]
      by_cases h1 : (hintIn h ["s", "short", "Short"] && decide (shortMinValue ≤ i) &&
          decide (i ≤ shortMaxValue)) = true
      · simp [to_java, h1, applyJavaAction, javaConvRaise, javaConvNone, javaConvIdentity, javaConvStr, javaConvBool, javaConvByte, javaConvShort, javaConvInt, javaConvLong, javaConvBigInteger, javaConvFloat, javaConvDouble, javaConvBigDecimal]
      · rw [Bool.not_eq_true] at h1
        by_cases h2 : (hintIn h ["b", "byte", "Byte"] && decide (byteMinValue ≤ i) &&
            decide (i ≤ byteMaxValue)) = true
        · simp [to_java, h1, h2, applyJavaAction, javaConvRaise, javaConvNone, javaConvIdentity, javaConvStr, javaConvBool, javaConvByte, javaConvShort, javaConvInt, javaConvLong, javaConvBigInteger, javaConvFloat, javaConvDouble, javaConvBigDecimal]
        · rw [Bool.not_eq_true] at h2
          by_cases h3 : (hintNoneOr h ["i", "int", "Integer"] &&
              decide (intMinValue ≤ i) && decide (i ≤ intMaxValue)) = true
          · simp [to_java, h1, h2, h3, applyJavaAction, javaConvRaise, javaConvNone, javaConvIdentity, javaConvStr, javaConvBool, javaConvByte, javaConvShort, javaConvInt, javaConvLong, javaConvBigInteger, javaConvFloat, javaConvDouble, javaConvBigDecimal]
          · rw [Bool.not_eq_true] at h3
            by_cases h4 : (hintNoneOr h ["j", "l", "long", "Long"] &&
                decide (longMinValue ≤ i) && decide (i ≤ longMaxValue)) = true
            · simp [to_java, h1, h2, h3, h4, applyJavaAction, javaConvRaise, javaConvNone, javaConvIdentity, javaConvStr, javaConvBool, javaConvByte, javaConvShort, javaConvInt, javaConvLong, javaConvBigInteger, javaConvFloat, javaConvDouble, javaConvBigDecimal]
            · rw [Bool.not_eq_true] at h4
              by_cases h5 : (hintNoneOr h ["bi", "bigint", "BigInteger"]) = true
              · simp [to_java, h1, h2, h3, h4, h5, applyJavaAction, javaConvRaise, javaConvNone, javaConvIdentity, javaConvStr, javaConvBool, javaConvByte, javaConvShort, javaConvInt, javaConvLong, javaConvBigInteger, javaConvFloat, javaConvDouble, javaConvBigDecimal]
              · rw [Bool.not_eq_true] at h5
                simp [to_java, h1, h2, h3, h4, h5, applyJavaAction, unsupportedMsg, javaConvRaise, javaConvNone, javaConvIdentity, javaConvStr, javaConvBool, javaConvByte, javaConvShort, javaConvInt, javaConvLong, javaConvBigInteger, javaConvFloat, javaConvDouble, javaConvBigDecimal]
  | vfloat x =>
      rw [toJavaDispatch, selJava_vfloat]
      by_cases h1 : (hintNoneOr h ["f", "float", "Float"] &&
          (x.isinf || x.isnan ||
            (pfLe (.finite (-floatMaxValue)) x && pfLe x (.finite floatMaxValue)))) = true
      · simp [to_java, h1, applyJavaAction, javaConvRaise, javaConvNone, javaConvIdentity, javaConvStr, javaConvBool, javaConvByte, javaConvShort, javaConvInt, javaConvLong, javaConvBigInteger, javaConvFloat, javaConvDouble, javaConvBigDecimal]
      · rw [Bool.not_eq_true] at h1
        by_cases h2 : (hintNoneOr h ["d", "double", "Double"] &&
            (x.isinf || x.isnan ||
              (pfLe (.finite (-doubleMaxValue)) x && pfLe x (.finite doubleMaxValue)))) = true
        · simp [to_java, h1, h2, applyJavaAction, javaConvRaise, javaConvNone, javaConvIdentity, javaConvStr, javaConvBool, javaConvByte, javaConvShort, javaConvInt, javaConvLong, javaConvBigInteger, javaConvFloat, javaConvDouble, javaConvBigDecimal]
        · rw [Bool.not_eq_true] at h2
          by_cases h3 : (hintNoneOr h ["bd", "bigdec", "BigDecimal"]) = true
          · simp [to_java, h1, h2, h3, applyJavaAction, javaConvRaise, javaConvNone, javaConvIdentity, javaConvStr, javaConvBool, javaConvByte, javaConvShort, javaConvInt, javaConvLong, javaConvBigInteger, javaConvFloat, javaConvDouble, javaConvBigDecimal]
          · rw [Bool.not_eq_true] at h3
            simp [to_java, h1, h2, h3, applyJavaAction, unsupportedMsg, javaConvRaise, javaConvNone, javaConvIdentity, javaConvStr, javaConvBool, javaConvByte, javaConvShort, javaConvInt, javaConvLong, javaConvBigInteger, javaConvFloat, javaConvDouble, javaConvBigDecimal]
  | _ => rfl

/-! ## JavaList adapter operations

The adapter holds a reference to one backing java.util.List; mutation is
modeled by returning the updated backing list explicitly. -/

/-- JavaList.__getitem__(key): to_python(self.jobj.get(key), gentle=True).
java List.get(key) requires 0 <= key < size; theorems supply that bound and
the out-of-range default here is never consulted under it. -/
def javaList_getitem (xs : List Val) (key : Nat) : Except ConvErr Val :=
  to_python (xs.getD key .vnone) true

/-- JavaList.__setitem__(key, value): to_python(self.jobj.set(key,
to_java(value)), gentle=True).  to_java runs first (its TypeError
propagates, leaving the list untouched); java List.set stores the converted
value at the index and returns the element previously there, which the
adapter converts gently.  Result: the updated backing list paired with the
adapter's return value. -/
def javaList_setitem (xs : List Val) (key : Nat) (value : Val) :
    Except ConvErr (List Val × Except ConvErr Val) :=
  match to_java value none with
  | .error e => .error e
  | .ok jv => .ok (xs.set key jv, to_python (xs.getD key .vnone) true)

/-! ## Shared dispatch facts -/

theorem javaConvRaise_mem : javaConvRaise ∈ javaConverters := by
  show javaConvRaise ∈ registerAll stockJavaConverters
  rw [mem_registerAll]
  simp [stockJavaConverters]

theorem pyConvRaise_mem : pyConvRaise ∈ pyConverters := by
  show pyConvRaise ∈ registerAll stockPyConverters
  rw [mem_registerAll]
  simp [stockPyConverters]

/-- The java-side scan always selects a converter (the fallback accepts
everything). -/
theorem selectJava_isSome (v : Val) (h : Hints) :
    ∃ c, selectConverter javaConverters v h = some c := by
  have := selectConverter_isSome javaConvRaise_mem (v := v) (h := h) rfl
  exact Option.isSome_iff_exists.mp this

/-- The py-side scan always selects a converter. -/
theorem selectPy_isSome (v : Val) :
    ∃ c, selectConverter pyConverters v none = some c := by
  have := selectConverter_isSome pyConvRaise_mem (v := v) (h := none) rfl
  exact Option.isSome_iff_exists.mp this

/-- A converter accepting strings at priority HIGH, as registered in the
priority-override scenario (the predicate is the same isinstance(obj, str)
test as the built-in string rule; the action tag is irrelevant to
selection). -/
def testStrConverter : Converter JavaAction where
  predicate := fun v _ => isPyStr v
  converter := .strToString
  priority := Priority.HIGH
  name := "test: str -> custom"

/-- Claim C2: for every dispatch through to_java or to_python, the rule
applied is the highest-priority registered rule whose predicate accepts the
value, later registrations preferred among equal priorities (the insort-built
registry scanned from the end agrees with pickSpec, the spec's selection
policy, for every registration sequence); and after add_java_converter
registers a str-accepting rule at priority HIGH (100), every subsequent
to_java dispatch on a str selects the new rule instead of the built-in
NORMAL-priority str rule. -/
theorem claim_C2 :
    (∀ (R : Type) (cs : List (Converter R)) (v : Val) (h : Hints),
        selectConverter (registerAll cs) v h = pickSpec cs v h) ∧
    (∀ (nc : Converter JavaAction) (s : String) (h : Hints),
        nc.priority = Priority.HIGH →
        nc.predicate (.vstr s) h = true →
        selectConverter (insort nc javaConverters) (.vstr s) h = some nc ∧
          nc ≠ javaConvStr) := by
  constructor
  · intro R cs v h
    exact selectConverter_eq_pickSpec cs v h
  · intro nc s h hpri hpred
    have hsel : selectConverter javaConverters (.vstr s) h = some javaConvStr := rfl
    have hsorted : javaConverters.Sorted
        (fun a b : Converter JavaAction => a.priority ≤ b.priority) :=
      registerAll_sorted stockJavaConverters
    have hins := selectConverter_insort nc (.vstr s) h hsorted
    rw [hsel] at hins
    constructor
    · rw [hins, if_pos hpred]
      have : ¬nc.priority < javaConvStr.priority := by
        rw [hpri]
        simp [Priority.HIGH, javaConvStr, Priority.NORMAL]
      simp [this]
    · intro hcon
      rw [hcon] at hpri
      simp [javaConvStr, Priority.NORMAL, Priority.HIGH] at hpri

theorem claim_C2_witness :
    selectConverter (registerAll ([] : List (Converter JavaAction)))
        (.vstr "x") none = pickSpec [] (.vstr "x") none ∧
    selectConverter (insort testStrConverter javaConverters)
        (.vstr "Hello world!") none = some testStrConverter :=
  ⟨claim_C2.1 JavaAction [] (.vstr "x") none,
   (claim_C2.2 testStrConverter "Hello world!" none rfl rfl).1⟩

/-- Claim C3: every dispatch selects some rule — the always-true fallback
guarantees the scan never exhausts the registry — so to_java / to_python
either return a selected rule's result or raise its TypeError, never the
silent None of a fallen-through loop. -/
theorem claim_C3 (v : Val) (h : Hints) :
    (∃ c, selectConverter javaConverters v h = some c ∧
        toJavaDispatch v h = applyJavaAction c.converter v ∧
        to_java v h = applyJavaAction c.converter v) ∧
    (∃ c, selectConverter pyConverters v none = some c ∧
        toPythonDispatch v = applyPyAction c.converter v) := by
  constructor
  · obtain ⟨c, hc⟩ := selectJava_isSome v h
    refine ⟨c, hc, ?_, ?_⟩
    · rw [toJavaDispatch, hc]
    · rw [to_java_eq_dispatch, toJavaDispatch, hc]
  · obtain ⟨c, hc⟩ := selectPy_isSome v
    exact ⟨c, hc, by rw [toPythonDispatch, hc]⟩

/-! ## Claims C4, C1, C6, C7, C8, C10 -/

/-- No rule other than the fallback applies to the value: every stock
converter whose predicate accepts it is the raising fallback. -/
def OnlyFallbackApplies (v : Val) : Prop :=
  ∀ c ∈ stockPyConverters, c.predicate v none = true →
    c.converter = PyAction.raiseTypeError

/-- Claim C4: to_python with gentle=True never raises the unconvertible-type
TypeError — in particular, whenever no rule other than the fallback applies
it returns the value unchanged — and to_python without gentle raises a
TypeError naming the value's type whenever no rule other than the fallback
applies. -/
theorem claim_C4 :
    (∀ v : Val, ∃ r, to_python v true = .ok r) ∧
    (∀ v : Val, OnlyFallbackApplies v → to_python v true = .ok v) ∧
    (∀ v : Val, OnlyFallbackApplies v →
      to_python v false = .error (.typeError (unsupportedMsg v))) := by
  have hdispatch : ∀ v : Val, OnlyFallbackApplies v →
      toPythonDispatch v = .error (.typeError (unsupportedMsg v)) := by
    intro v hv
    obtain ⟨c, hc⟩ := selectPy_isSome v
    have hmem := (selectConverter_mem hc).1
    have hpred := (selectConverter_mem hc).2
    have hconv : c.converter = PyAction.raiseTypeError := by
      apply hv c _ hpred
      have : c ∈ registerAll stockPyConverters := hmem
      exact mem_registerAll.mp this
    rw [toPythonDispatch, hc]
    show applyPyAction c.converter v = _
    rw [hconv]
    rfl
  refine ⟨?_, ?_, ?_⟩
  · intro v
    cases v <;> exact ⟨_, rfl⟩
  · intro v hv
    rw [to_python, hdispatch v hv]
    rfl
  · intro v hv
    rw [to_python, hdispatch v hv]
    rfl

theorem claim_C4_witness :
    to_python (.jforeign "java.lang.Object") true = .ok (.jforeign "java.lang.Object") ∧
    to_python (.jforeign "java.lang.Object") false =
      .error (.typeError "Unsupported type: <java class 'java.lang.Object'>") := by
  have honly : OnlyFallbackApplies (.jforeign "java.lang.Object") := by
    unfold OnlyFallbackApplies
    decide
  exact ⟨claim_C4.2.1 (.jforeign "java.lang.Object") honly,
    claim_C4.2.2 (.jforeign "java.lang.Object") honly⟩

/-- Evaluation of to_java on an int with no hints: Integer inside the 32-bit
signed range, Long inside the 64-bit signed range, BigInteger (built from the
decimal string) beyond. -/
theorem to_java_vint_nohint (i : Int) :
    to_java (.vint i) none =
      if intMinValue ≤ i ∧ i ≤ intMaxValue then .ok (.jinteger i)
      else if longMinValue ≤ i ∧ i ≤ longMaxValue then .ok (.jlong i)
      else .ok (.jbigint (decStr i)) := by
  simp only [to_java, hintIn, hintNoneOr, Bool.false_and, Bool.true_and,
    Bool.false_eq_true, if_false]
  by_cases h3 : intMinValue ≤ i ∧ i ≤ intMaxValue
  · rw [if_pos (by simpa [Bool.and_eq_true, decide_eq_true_eq] using h3), if_pos h3]
  · rw [if_neg (by simpa [Bool.and_eq_true, decide_eq_true_eq] using h3), if_neg h3]
    by_cases h4 : longMinValue ≤ i ∧ i ≤ longMaxValue
    · rw [if_pos (by simpa [Bool.and_eq_true, decide_eq_true_eq] using h4), if_pos h4]
    · rw [if_neg (by simpa [Bool.and_eq_true, decide_eq_true_eq] using h4), if_neg h4]
      simp

/-- Claim C1: with no hints, a 32-bit-ranged int becomes java.lang.Integer, a
64-bit-ranged int beyond that becomes java.lang.Long, anything beyond becomes
a java.math.BigInteger built from the decimal string, and in all three cases
to_python recovers the int exactly. -/
theorem claim_C1 (i : Int) :
    (intMinValue ≤ i ∧ i ≤ intMaxValue →
      to_java (.vint i) none = .ok (.jinteger i) ∧
      to_python (.jinteger i) false = .ok (.vint i)) ∧
    (¬(intMinValue ≤ i ∧ i ≤ intMaxValue) → longMinValue ≤ i ∧ i ≤ longMaxValue →
      to_java (.vint i) none = .ok (.jlong i) ∧
      to_python (.jlong i) false = .ok (.vint i)) ∧
    (¬(longMinValue ≤ i ∧ i ≤ longMaxValue) →
      to_java (.vint i) none = .ok (.jbigint (decStr i)) ∧
      to_python (.jbigint (decStr i)) false = .ok (.vint i)) := by
  refine ⟨?_, ?_, ?_⟩
  · intro h32
    rw [to_java_vint_nohint, if_pos h32]
    exact ⟨rfl, rfl⟩
  · intro h32 h64
    rw [to_java_vint_nohint, if_neg h32, if_pos h64]
    exact ⟨rfl, rfl⟩
  · intro h64
    have h32 : ¬(intMinValue ≤ i ∧ i ≤ intMaxValue) := by
      intro hcon
      apply h64
      simp only [intMinValue, intMaxValue] at hcon
      simp only [longMinValue, longMaxValue]
      omega
    rw [to_java_vint_nohint, if_neg h32, if_neg h64]
    refine ⟨rfl, ?_⟩
    have : to_python (.jbigint (decStr i)) false = .ok (.vint (parseDec (decStr i))) := rfl
    rw [this, parseDec_decStr]

theorem claim_C1_witness :
    (to_java (.vint 5) none = .ok (.jinteger 5) ∧
      to_python (.jinteger 5) false = .ok (.vint 5)) ∧
    (to_java (.vint (2 ^ 40)) none = .ok (.jlong (2 ^ 40)) ∧
      to_python (.jlong (2 ^ 40)) false = .ok (.vint (2 ^ 40))) ∧
    (to_java (.vint (2 ^ 64 + 7)) none = .ok (.jbigint (decStr (2 ^ 64 + 7))) ∧
      to_python (.jbigint (decStr (2 ^ 64 + 7))) false = .ok (.vint (2 ^ 64 + 7))) :=
  ⟨(claim_C1 5).1 (by decide),
   ((claim_C1 (2 ^ 40)).2.1 (by decide) (by decide)),
   ((claim_C1 (2 ^ 64 + 7)).2.2 (by decide))⟩

/-- Claim C6: to_java on a bool with no hints yields java.lang.Boolean,
never a boxed integer type, even though the Integer rule's own predicate
accepts the bool (isinstance(obj, int) holds for bools). -/
theorem claim_C6 (b : Bool) :
    to_java (.vbool b) none = .ok (.jboolean b) ∧
    javaConvInt.predicate (.vbool b) none = true ∧
    selectConverter javaConverters (.vbool b) none = some javaConvBool ∧
    (∀ i : Int, to_java (.vbool b) none ≠ .ok (.jinteger i)) ∧
    (∀ i : Int, to_java (.vbool b) none ≠ .ok (.jlong i)) := by
  refine ⟨rfl, ?_, rfl, ?_, ?_⟩
  · cases b <;> rfl
  · intro i hcon
    rw [show to_java (.vbool b) none = .ok (.jboolean b) from rfl] at hcon
    simp at hcon
  · intro i hcon
    rw [show to_java (.vbool b) none = .ok (.jboolean b) from rfl] at hcon
    simp at hcon

/-- Claim C7: the non-finite floats fail the range comparison yet convert to
java.lang.Float via the explicit isinf / isnan special cases, and the round
trip returns +inf, -inf, and a NaN still unequal to itself. -/
theorem claim_C7 :
    (pfLe (.finite (-floatMaxValue)) .inf && pfLe .inf (.finite floatMaxValue)) = false ∧
    (pfLe (.finite (-floatMaxValue)) .neginf &&
      pfLe .neginf (.finite floatMaxValue)) = false ∧
    (pfLe (.finite (-floatMaxValue)) .nan && pfLe .nan (.finite floatMaxValue)) = false ∧
    to_java (.vfloat .inf) none = .ok (.jfloat .inf) ∧
    to_python (.jfloat .inf) false = .ok (.vfloat .inf) ∧
    to_java (.vfloat .neginf) none = .ok (.jfloat .neginf) ∧
    to_python (.jfloat .neginf) false = .ok (.vfloat .neginf) ∧
    to_java (.vfloat .nan) none = .ok (.jfloat .nan) ∧
    to_python (.jfloat .nan) false = .ok (.vfloat .nan) ∧
    pfEq .nan .nan = false :=
  ⟨rfl, rfl, rfl, rfl, rfl, rfl, rfl, rfl, rfl, rfl⟩

/-- Claim C8 (code bug): the stock Character rule's action is
converter=lambda obj: str — it returns the builtin type object str itself
instead of the one-character string, for every boxed Character; the claim
(and the to_python docstring, "Character -> str") call for the character's
string via value extraction. -/
theorem claim_C8 :
    selectConverter pyConverters (.jcharacter 'a') none = some pyConvCharacter ∧
    pyConvCharacter.converter = PyAction.characterToStr ∧
    to_python (.jcharacter 'a') false = .ok .vbuiltinStr ∧
    to_python (.jcharacter 'a') false ≠ .ok (.vstr "a") := by
  refine ⟨rfl, rfl, rfl, ?_⟩
  intro hcon
  rw [show to_python (.jcharacter 'a') false = .ok .vbuiltinStr from rfl] at hcon
  simp at hcon

/-- Claim C10: to_java on an int with an unrecognized type hint matches no
built-in rule except the fallback — every numeric rule's hint gate is false
and no structural rule accepts an int — so it raises the unconvertible-type
TypeError instead of falling back to the range-based selection. -/
theorem claim_C10 (i : Int) (X : String)
    (hX : X ∉ ["b", "byte", "Byte", "s", "short", "Short", "i", "int", "Integer",
      "j", "l", "long", "Long", "bi", "bigint", "BigInteger"]) :
    (∀ c ∈ stockJavaConverters, c.predicate (.vint i) (some X) = true →
      c.converter = JavaAction.raiseTypeError) ∧
    to_java (.vint i) (some X) =
      .error (.typeError (unsupportedMsg (.vint i))) := by
  simp only [List.mem_cons, List.not_mem_nil, or_false, not_or] at hX
  obtain ⟨hb, hByte, hByte2, hs, hshort, hShort2, hi, hint, hInt2, hj, hl,
    hlong, hLong2, hbi, hbigint, hBigInt2⟩ := hX
  have hc1 : hintIn (some X) ["s", "short", "Short"] = false := by
    simp [hintIn, hs, hshort, hShort2]
  have hc2 : hintIn (some X) ["b", "byte", "Byte"] = false := by
    simp [hintIn, hb, hByte, hByte2]
  have hc3 : hintNoneOr (some X) ["i", "int", "Integer"] = false := by
    simp [hintNoneOr, hi, hint, hInt2]
  have hc4 : hintNoneOr (some X) ["j", "l", "long", "Long"] = false := by
    simp [hintNoneOr, hj, hl, hlong, hLong2]
  have hc5 : hintNoneOr (some X) ["bi", "bigint", "BigInteger"] = false := by
    simp [hintNoneOr, hbi, hbigint, hBigInt2]
  constructor
  · intro c hc hpred
    simp only [stockJavaConverters, List.mem_cons, List.not_mem_nil, or_false] at hc
    rcases hc with rfl | rfl | rfl | rfl | rfl | rfl | rfl | rfl | rfl | rfl |
      rfl | rfl | rfl | rfl | rfl | rfl | rfl | rfl
    · rfl
    all_goals
      simp [javaConvNone, javaConvIdentity, javaConvStr, javaConvBool,
        javaConvByte, javaConvShort, javaConvInt, javaConvLong,
        javaConvBigInteger, javaConvFloat, javaConvDouble, javaConvBigDecimal,
        javaConvPath, javaConvDataFrame, javaConvMapping, javaConvSet,
        javaConvIterable, isjava, isPyInt, isPyBool, isPyStr, isPyFloat,
        isPyPath, isDataFrame, isPyMapping, isPySet, isPyIterable,
        hc1, hc2, hc3, hc4, hc5] at hpred
  · simp [to_java, hc1, hc2, hc3, hc4, hc5]

theorem claim_C10_witness :
    (∀ c ∈ stockJavaConverters, c.predicate (.vint 3) (some "flurb") = true →
      c.converter = JavaAction.raiseTypeError) ∧
    to_java (.vint 3) (some "flurb") =
      .error (.typeError (unsupportedMsg (.vint 3))) :=
  claim_C10 3 "flurb" (by decide)

/-- Claim C9: on a JavaList adapter, setting a valid index to a convertible
value and reading it back returns exactly the value's host-managed-host round
trip, and the backing list's length is unchanged (set semantics, not
insert). -/
theorem claim_C9 (xs : List Val) (key : Nat) (v jv : Val)
    (hk : key < xs.length) (hv : to_java v none = .ok jv) :
    ∃ ys ret, javaList_setitem xs key v = .ok (ys, ret) ∧
      ys.length = xs.length ∧
      javaList_getitem ys key = to_python jv true := by
  refine ⟨xs.set key jv, to_python (xs.getD key .vnone) true, ?_, ?_, ?_⟩
  · rw [javaList_setitem, hv]
  · exact List.length_set xs key jv
  · rw [javaList_getitem]
    have : (xs.set key jv).getD key .vnone = jv := by
      rw [List.getD_eq_getElem?_getD, List.getElem?_set_eq_of_lt jv hk]
      rfl
    rw [this]

theorem claim_C9_witness :
    0 < ([Val.jinteger 5] : List Val).length ∧
    ∃ ys ret, javaList_setitem [Val.jinteger 5] 0 (.vint 7) = .ok (ys, ret) ∧
      ys.length = ([Val.jinteger 5] : List Val).length ∧
      javaList_getitem ys 0 = to_python (.jinteger 7) true :=
  ⟨by decide, claim_C9 [Val.jinteger 5] 0 (.vint 7) (.jinteger 7) (by decide) rfl⟩

/-! ## Composite round-trip machinery (claim C5)

Comparing a round-tripped structure with its original evaluates the
adapters' __eq__ methods: JavaCollection compares element-wise over zip,
JavaMap key by key with gentle lookups, JavaSet by membership — each
converted element obtained by a gentle to_python.  cmpJPF below evaluates
the Python expression to_python(j, gentle) == p, recursing on the wrapped
Java value, with explicit fuel bounding the nesting depth (each recursive
call descends one collection level); vsize gives a sufficient fuel. -/

mutual
/-- Number of constructors in a value; at least 1, and an upper bound for
the nesting depth. -/
def vsize : Val → Nat
  | .vlist xs => 1 + vsizeL xs
  | .vset xs => 1 + vsizeL xs
  | .vdict kvs => 1 + vsizeP kvs
  | .jlist xs => 1 + vsizeL xs
  | .jset xs => 1 + vsizeL xs
  | .jmap kvs => 1 + vsizeP kvs
  | .wlist xs => 1 + vsizeL xs
  | .wset xs => 1 + vsizeL xs
  | .wmap kvs => 1 + vsizeP kvs
  | _ => 1
def vsizeL : List Val → Nat
  | [] => 0
  | x :: rest => vsize x + vsizeL rest
def vsizeP : List (Val × Val) → Nat
  | [] => 0
  | (k, v) :: rest => vsize k + vsize v + vsizeP rest
end

/-- No element repeats, by Java/structural equality; for the hashable atoms
appearing as dict keys and set elements this coincides with Python
distinctness. -/
def nodupB : List Val → Bool
  | [] => true
  | x :: rest => rest.all (fun y => !veq x y) && nodupB rest

/-- A hashable atom usable as a dict key or set element in the modeled
fragment: a host int or str. -/
def keyAtom : Val → Bool
  | .vint _ => true
  | .vstr _ => true
  | _ => false

mutual
/-- The nested host structures of claim C5: ints, strings, and lists, sets
and dicts built from them, with set elements and dict keys hashable atoms
and Python-distinct. -/
def simpleVal : Val → Bool
  | .vint _ => true
  | .vstr _ => true
  | .vlist xs => simpleL xs
  | .vset xs => simpleAtoms xs && nodupB xs
  | .vdict kvs => simpleItems kvs && nodupB (kvs.map Prod.fst)
  | _ => false
def simpleL : List Val → Bool
  | [] => true
  | x :: rest => simpleVal x && simpleL rest
def simpleAtoms : List Val → Bool
  | [] => true
  | x :: rest => keyAtom x && simpleAtoms rest
def simpleItems : List (Val × Val) → Bool
  | [] => true
  | (k, v) :: rest => keyAtom k && simpleVal v && simpleItems rest
end

/-- Python == between non-collection host values (with Python's cross-type
numeric equality: booleans and ints and floats compare by value).  Java
objects left unconverted by gentle mode compare by Object.equals through
JPype; distinct foreign objects are outside the modeled fragment, so every
case involving them degrades to false here. -/
def pyEqAtom : Val → Val → Bool
  | .vbool b, .vbool c => b == c
  | .vbool b, .vint n => pyIntVal (.vbool b) == n
  | .vint i, .vbool c => i == pyIntVal (.vbool c)
  | .vint i, .vint n => i == n
  | .vint i, .vfloat y => pfEq (.finite (i : ℚ)) y
  | .vfloat x, .vint n => pfEq x (.finite (n : ℚ))
  | .vfloat x, .vfloat y => pfEq x y
  | .vbool b, .vfloat y => pfEq (.finite ((pyIntVal (.vbool b) : Int) : ℚ)) y
  | .vfloat x, .vbool c => pfEq x (.finite ((pyIntVal (.vbool c) : Int) : ℚ))
  | .vstr s, .vstr t => s == t
  | .vpath s, .vpath t => s == t
  | .vnone, .vnone => true
  | .vbuiltinStr, .vbuiltinStr => true
  | _, _ => false

/-- The host conversion of this Java collection element is an adapter, which
is unhashable: using it as a dict/set membership probe raises TypeError,
which the adapters' __eq__ catches, returning "not equal". -/
def convertsUnhashable : Val → Bool
  | .jlist _ => true
  | .jset _ => true
  | .jmap _ => true
  | _ => false

/-- Evaluate the Python comparison to_python(j, gentle) == p, where j is the
Java value wrapped by (or converted from) a round trip and p a host value:
boxed values convert and compare as atoms; a collection wraps into an
adapter whose __eq__ runs — length check then zip comparison for JavaList,
membership for JavaSet elements, and for JavaMap each key converted,
looked up in the dict by ==, then self[k] (a gentle get keyed by
to_java(to_python(key))) compared with the dict's value.  Comparisons whose
Python evaluation raises TypeError (unhashable probes, unconvertible keys)
yield false, as the adapters' __eq__ catches the error.  Shapes outside
those arising from round trips compare false.  Fuel decreases at each
collection level; fuel 0 is never reached from a sufficient start. -/
def cmpJPF : Nat → Val → Val → Bool
  | 0, _, _ => false
  | fuel + 1, j, p =>
    match j with
    | .jboolean b => pyEqAtom (.vbool b) p
    | .jbyte i => pyEqAtom (.vint i) p
    | .jshort i => pyEqAtom (.vint i) p
    | .jinteger i => pyEqAtom (.vint i) p
    | .jlong i => pyEqAtom (.vint i) p
    | .jbigint s => pyEqAtom (.vint (parseDec s)) p
    | .jfloat x => pyEqAtom (.vfloat x) p
    | .jdouble x => pyEqAtom (.vfloat x) p
    | .jbigdec x => pyEqAtom (.vfloat x) p
    | .jstring s => pyEqAtom (.vstr s) p
    | .jpath s => pyEqAtom (.vpath s) p
    | .jcharacter _ => pyEqAtom .vbuiltinStr p
    | .jlist xs =>
        match p with
        | .vlist ys =>
            Nat.beq xs.length ys.length &&
              (List.zip xs ys).all (fun q => cmpJPF fuel q.1 q.2)
        | _ => false
    | .jset xs =>
        match p with
        | .vset ys =>
            Nat.beq xs.length ys.length &&
              xs.all (fun jx =>
                if convertsUnhashable jx then false
                else ys.any (fun py => cmpJPF fuel jx py))
        | _ => false
    | .jmap kvs =>
        match p with
        | .vdict pkvs =>
            Nat.beq kvs.length pkvs.length &&
              kvs.all (fun q =>
                if convertsUnhashable q.1 then false
                else
                  match pkvs.find? (fun r => cmpJPF fuel q.1 r.1) with
                  | none => false
                  | some r =>
                      match to_java (toPythonG q.1) none with
                      | .error _ => false
                      | .ok jk2 =>
                          match kvs.find? (fun r2 => veq r2.1 jk2) with
                          | some r2 => cmpJPF fuel r2.2 r.2
                          | none => pyEqAtom .vnone r.2)
        | _ => false
    | other => pyEqAtom other p

/-- Python == between a to_python result and a host value: adapter results
delegate to their __eq__ over the wrapped Java collection, other results
compare as host atoms; vsize of the wrapped value is sufficient fuel. -/
def pyEqRes (r p : Val) : Bool :=
  match r with
  | .wlist xs => cmpJPF (vsize (.jlist xs)) (.jlist xs) p
  | .wset xs => cmpJPF (vsize (.jset xs)) (.jset xs) p
  | .wmap kvs => cmpJPF (vsize (.jmap kvs)) (.jmap kvs) p
  | a => pyEqAtom a p

/-! ## Small facts about sizes, the simple fragment, and keys -/

theorem vsize_pos (v : Val) : 1 ≤ vsize v := by
  cases v <;> simp [vsize]

theorem vsizeL_mem {x : Val} : ∀ {xs : List Val}, x ∈ xs → vsize x ≤ vsizeL xs := by
  intro xs
  induction xs with
  | nil => intro hcon; simp at hcon
  | cons y ys ih =>
      intro hm
      rcases List.mem_cons.mp hm with rfl | hm
      · simp [vsizeL]
      · have := ih hm
        simp only [vsizeL]
        omega

theorem vsizeP_mem {q : Val × Val} :
    ∀ {kvs : List (Val × Val)}, q ∈ kvs →
      vsize q.1 ≤ vsizeP kvs ∧ vsize q.2 ≤ vsizeP kvs := by
  intro kvs
  induction kvs with
  | nil => intro hcon; simp at hcon
  | cons r rest ih =>
      intro hm
      rcases List.mem_cons.mp hm with rfl | hm
      · obtain ⟨a, b⟩ := q
        simp only [vsizeP]
        omega
      · have := ih hm
        obtain ⟨r1, r2⟩ := r
        simp only [vsizeP]
        omega

theorem simpleL_mem : ∀ {xs : List Val}, simpleL xs = true →
    ∀ x ∈ xs, simpleVal x = true := by
  intro xs
  induction xs with
  | nil => intro _ x hcon; simp at hcon
  | cons y ys ih =>
      intro hs x hm
      simp only [simpleL, Bool.and_eq_true] at hs
      rcases List.mem_cons.mp hm with rfl | hm
      · exact hs.1
      · exact ih hs.2 x hm

theorem simpleAtoms_mem : ∀ {xs : List Val}, simpleAtoms xs = true →
    ∀ x ∈ xs, keyAtom x = true := by
  intro xs
  induction xs with
  | nil => intro _ x hcon; simp at hcon
  | cons y ys ih =>
      intro hs x hm
      simp only [simpleAtoms, Bool.and_eq_true] at hs
      rcases List.mem_cons.mp hm with rfl | hm
      · exact hs.1
      · exact ih hs.2 x hm

theorem simpleItems_mem : ∀ {kvs : List (Val × Val)}, simpleItems kvs = true →
    ∀ q ∈ kvs, keyAtom q.1 = true ∧ simpleVal q.2 = true := by
  intro kvs
  induction kvs with
  | nil => intro _ q hcon; simp at hcon
  | cons r rest ih =>
      intro hs q hm
      obtain ⟨k, v⟩ := r
      simp only [simpleItems, Bool.and_eq_true] at hs
      rcases List.mem_cons.mp hm with rfl | hm
      · exact ⟨hs.1.1, hs.1.2⟩
      · exact ih hs.2 q hm

/-- The shape of a converted hashable atom key/element: an int becomes a
boxed Integer, Long or decimal-string BigInteger, a str becomes a String. -/
def KeyShape (k jk : Val) : Prop :=
  (∃ i : Int, k = .vint i ∧
    (jk = .jinteger i ∨ jk = .jlong i ∨ jk = .jbigint (decStr i))) ∨
  (∃ s : String, k = .vstr s ∧ jk = .jstring s)

theorem key_conv {k : Val} (hk : keyAtom k = true) :
    ∃ jk, to_java k none = .ok jk ∧ KeyShape k jk := by
  cases k with
  | vint i =>
      rw [to_java_vint_nohint]
      by_cases h32 : intMinValue ≤ i ∧ i ≤ intMaxValue
      · exact ⟨.jinteger i, by rw [if_pos h32], Or.inl ⟨i, rfl, Or.inl rfl⟩⟩
      · by_cases h64 : longMinValue ≤ i ∧ i ≤ longMaxValue
        · exact ⟨.jlong i, by rw [if_neg h32, if_pos h64], Or.inl ⟨i, rfl, Or.inr (Or.inl rfl)⟩⟩
        · exact ⟨.jbigint (decStr i), by rw [if_neg h32, if_neg h64],
            Or.inl ⟨i, rfl, Or.inr (Or.inr rfl)⟩⟩
  | vstr s => exact ⟨.jstring s, rfl, Or.inr ⟨s, rfl, rfl⟩⟩
  | vnone => simp [keyAtom] at hk
  | vbool b => simp [keyAtom] at hk
  | vfloat x => simp [keyAtom] at hk
  | vpath s => simp [keyAtom] at hk
  | vlist xs => simp [keyAtom] at hk
  | vset xs => simp [keyAtom] at hk
  | vdict kvs => simp [keyAtom] at hk
  | vbuiltinStr => simp [keyAtom] at hk
  | jboolean b => simp [keyAtom] at hk
  | jcharacter c => simp [keyAtom] at hk
  | jbyte i => simp [keyAtom] at hk
  | jshort i => simp [keyAtom] at hk
  | jinteger i => simp [keyAtom] at hk
  | jlong i => simp [keyAtom] at hk
  | jbigint s => simp [keyAtom] at hk
  | jfloat x => simp [keyAtom] at hk
  | jdouble x => simp [keyAtom] at hk
  | jbigdec x => simp [keyAtom] at hk
  | jstring s => simp [keyAtom] at hk
  | jpath s => simp [keyAtom] at hk
  | jlist xs => simp [keyAtom] at hk
  | jset xs => simp [keyAtom] at hk
  | jmap kvs => simp [keyAtom] at hk
  | jforeign c => simp [keyAtom] at hk
  | wlist xs => simp [keyAtom] at hk
  | wset xs => simp [keyAtom] at hk
  | wmap kvs => simp [keyAtom] at hk


/-- Java equals is reflexive on the converted key shapes. -/
theorem veq_refl_atom {k : Val} (hk : keyAtom k = true) : veq k k = true := by
  cases k with
  | vint i => exact (beq_self_eq_true i : _)
  | vstr s => exact (beq_self_eq_true s : _)
  | _ => simp [keyAtom] at hk

theorem keyshape_facts {k jk : Val} (hsh : KeyShape k jk) :
    toPythonG jk = k ∧ convertsUnhashable jk = false ∧ vsize jk = 1 ∧
    vsize k = 1 ∧ veq jk jk = true ∧
    (∀ n p, cmpJPF (n + 1) jk p = pyEqAtom k p) := by
  rcases hsh with ⟨i, rfl, hj | hj | hj⟩ | ⟨s, rfl, hj⟩ <;> subst hj
  · exact ⟨rfl, rfl, rfl, rfl, (beq_self_eq_true i : _), fun n p => rfl⟩
  · exact ⟨rfl, rfl, rfl, rfl, (beq_self_eq_true i : _), fun n p => rfl⟩
  · refine ⟨?_, rfl, rfl, rfl, (beq_self_eq_true (decStr i) : _), fun n p => ?_⟩
    · show Val.vint (parseDec (decStr i)) = Val.vint i
      rw [parseDec_decStr]
    · show pyEqAtom (.vint (parseDec (decStr i))) p = pyEqAtom (.vint i) p
      rw [parseDec_decStr]
  · exact ⟨rfl, rfl, rfl, rfl, (beq_self_eq_true s : _), fun n p => rfl⟩

theorem keyshape_veq_eq {k k' jk jk' : Val} (h1 : KeyShape k jk)
    (h2 : KeyShape k' jk') (hv : veq jk jk' = true) : k = k' := by
  rcases h1 with ⟨i, rfl, hj | hj | hj⟩ | ⟨s, rfl, hj⟩ <;>
    rcases h2 with ⟨i', rfl, hj' | hj' | hj'⟩ | ⟨s', rfl, hj'⟩ <;>
      subst hj <;> subst hj'
  all_goals first
    | exact Bool.noConfusion (hv : false = true)
    | skip
  · have hii : i = i' := eq_of_beq (hv : (i == i') = true)
    rw [hii]
  · have hii : i = i' := eq_of_beq (hv : (i == i') = true)
    rw [hii]
  · have hd : decStr i = decStr i' := eq_of_beq (hv : (decStr i == decStr i') = true)
    have hp : parseDec (decStr i) = parseDec (decStr i') := by rw [hd]
    rw [parseDec_decStr, parseDec_decStr] at hp
    rw [hp]
  · have hss : s = s' := eq_of_beq (hv : (s == s') = true)
    rw [hss]

/-- Python == between hashable atoms coincides with structural equality. -/
theorem key_pyEqAtom_iff {k k' : Val} (h1 : keyAtom k = true)
    (h2 : keyAtom k' = true) : (pyEqAtom k k' = true ↔ k = k') := by
  cases k with
  | vint i =>
      cases k' with
      | vint n =>
          refine ⟨fun h => ?_, fun h => ?_⟩
          · have := eq_of_beq (h : (i == n) = true)
            rw [this]
          · cases h
            exact (beq_self_eq_true i : _)
      | vstr t =>
          exact ⟨fun h => Bool.noConfusion (h : false = true),
            fun h => Val.noConfusion h⟩
      | _ => simp [keyAtom] at h2
  | vstr s =>
      cases k' with
      | vint n =>
          exact ⟨fun h => Bool.noConfusion (h : false = true),
            fun h => Val.noConfusion h⟩
      | vstr t =>
          refine ⟨fun h => ?_, fun h => ?_⟩
          · have := eq_of_beq (h : (s == t) = true)
            rw [this]
          · cases h
            exact (beq_self_eq_true s : _)
      | _ => simp [keyAtom] at h2
  | _ => simp [keyAtom] at h1

/-- A Python dict lookup by == finds the unique matching entry when keys are
distinct. -/
theorem find_first_key {p : (Val × Val) → Bool} :
    ∀ (pkvs : List (Val × Val)) (k x : Val), (k, x) ∈ pkvs →
      veq k k = true →
      nodupB (pkvs.map Prod.fst) = true →
      (∀ r ∈ pkvs, (p r = true ↔ k = r.1)) →
      pkvs.find? p = some (k, x) := by
  intro pkvs
  induction pkvs with
  | nil => intro k x h _ _ _; simp at h
  | cons r0 rest ih =>
      intro k x hmem hrefl hnd hiff
      simp only [List.map_cons, nodupB, Bool.and_eq_true, List.all_eq_true] at hnd
      by_cases hp0 : p r0 = true
      · have hk0 : k = r0.1 := (hiff r0 (by simp)).mp hp0
        rcases List.mem_cons.mp hmem with heq | hmem'
        · rw [List.find?_cons_of_pos _ hp0, ← heq]
        · exfalso
          have hkmem : k ∈ rest.map Prod.fst :=
            List.mem_map.mpr ⟨(k, x), hmem', rfl⟩
          have hcon := hnd.1 k hkmem
          rw [← hk0, hrefl] at hcon
          simp at hcon
      · have hne : ¬(k = r0.1) := fun hcon => hp0 ((hiff r0 (by simp)).mpr hcon)
        have hmem' : (k, x) ∈ rest := by
          rcases List.mem_cons.mp hmem with heq | hmm
          · exact absurd (by rw [← heq]) hne
          · exact hmm
        rw [List.find?_cons_of_neg _ (by simpa using hp0)]
        exact ih k x hmem' hrefl hnd.2 (fun r hr => hiff r (by simp [hr]))

/-- A Java Map.get by Object.equals finds the unique matching entry when the
stored keys are pairwise unequal. -/
theorem find_java_key :
    ∀ (m : List (Val × Val)) (jk jv : Val), (jk, jv) ∈ m →
      veq jk jk = true →
      nodupB (m.map Prod.fst) = true →
      m.find? (fun r2 => veq r2.1 jk) = some (jk, jv) := by
  intro m
  induction m with
  | nil => intro jk jv h _ _; simp at h
  | cons r0 rest ih =>
      intro jk jv hmem hrefl hnd
      simp only [List.map_cons, nodupB, Bool.and_eq_true, List.all_eq_true] at hnd
      by_cases hp0 : veq r0.1 jk = true
      · rcases List.mem_cons.mp hmem with heq | hmem'
        · subst heq
          simp [List.find?, hrefl]
        · exfalso
          have hkmem : jk ∈ rest.map Prod.fst :=
            List.mem_map.mpr ⟨(jk, jv), hmem', rfl⟩
          have hcon := hnd.1 jk hkmem
          rw [hp0] at hcon
          simp at hcon
      · have hmem' : (jk, jv) ∈ rest := by
          rcases List.mem_cons.mp hmem with heq | hmm
          · exfalso
            apply hp0
            rw [← heq]
            exact hrefl
          · exact hmm
        rw [List.find?_cons_of_neg _ (by simpa using hp0)]
        exact ih jk jv hmem' hrefl hnd.2

/-- The _convertIterable loop succeeds pointwise. -/
theorem listElems_ok {xs js : List Val}
    (hf : List.Forall₂ (fun x j => to_java x none = .ok j) xs js) :
    to_java_listElems xs = .ok js := by
  induction hf with
  | nil => rfl
  | cons h1 h2 ih =>
      simp only [to_java_listElems, h1, ih]
      rfl

/-- The _convertSet loop appends each converted element when the converted
elements are pairwise unequal and fresh for the accumulator (LinkedHashSet
add never deduplicates then). -/
theorem setElems_append {xs js : List Val}
    (hf : List.Forall₂ (fun x j => to_java x none = .ok j) xs js) :
    ∀ acc : List Val,
      (∀ j ∈ js, ∀ a ∈ acc, veq a j = false) →
      nodupB js = true →
      to_java_setElems xs acc = .ok (acc ++ js) := by
  induction hf with
  | nil => intro acc _ _; simp [to_java_setElems]
  | @cons x j xs' js' h1 h2 ih =>
      intro acc hfresh hnd
      simp only [nodupB, Bool.and_eq_true, List.all_eq_true] at hnd
      have hany : acc.any (fun y => veq y j) = false := by
        rw [List.any_eq_false]
        intro a ha
        simp [hfresh j (by simp) a ha]
      have hput : lhsAdd acc j = acc ++ [j] := by
        rw [lhsAdd, hany]
        simp
      have hstep : to_java_setElems (x :: xs') acc =
          to_java_setElems xs' (lhsAdd acc j) := by
        simp only [to_java_setElems, h1]
        rfl
      rw [hstep, hput, ih (acc ++ [j]) ?_ hnd.2]
      · simp
      · intro q hq a ha
        rcases List.mem_append.mp ha with ha' | ha'
        · exact hfresh q (by simp [hq]) a ha'
        · have : a = j := by simpa using ha'
          subst this
          have := hnd.1 q hq
          simpa using this

/-- The _convertMap loop appends each converted pair when the converted keys
are pairwise unequal and fresh for the accumulator (LinkedHashMap put never
replaces then). -/
theorem mapItems_append {kvs m : List (Val × Val)}
    (hf : List.Forall₂ (fun kx q => to_java kx.1 none = .ok q.1 ∧
      to_java kx.2 none = .ok q.2) kvs m) :
    ∀ acc : List (Val × Val),
      (∀ q ∈ m, ∀ a ∈ acc, veq a.1 q.1 = false) →
      nodupB (m.map Prod.fst) = true →
      to_java_mapItems kvs acc = .ok (acc ++ m) := by
  induction hf with
  | nil => intro acc _ _; simp [to_java_mapItems]
  | @cons kx q kvs' m' h1 h2 ih =>
      intro acc hfresh hnd
      obtain ⟨k, x⟩ := kx
      obtain ⟨jk, jv⟩ := q
      simp only [List.map_cons, nodupB, Bool.and_eq_true, List.all_eq_true] at hnd
      have hany : acc.any (fun q2 => veq q2.1 jk) = false := by
        rw [List.any_eq_false]
        intro a ha
        simp [hfresh (jk, jv) (by simp) a ha]
      have hput : lhmPut acc jk jv = acc ++ [(jk, jv)] := by
        rw [lhmPut, hany]
        simp
      have hstep : to_java_mapItems ((k, x) :: kvs') acc =
          to_java_mapItems kvs' (lhmPut acc jk jv) := by
        simp only [to_java_mapItems, h1.1, h1.2]
        rfl
      rw [hstep, hput, ih (acc ++ [(jk, jv)]) ?_ hnd.2]
      · simp
      · intro q hq a ha
        rcases List.mem_append.mp ha with ha' | ha'
        · exact hfresh q (by simp [hq]) a ha'
        · have : a = (jk, jv) := by simpa using ha'
          subst this
          have := hnd.1 q.1 (List.mem_map.mpr ⟨q, hq, rfl⟩)
          simpa using this

/-! ## Round-trip master induction -/

/-- Facts carried for one converted element. -/
def ElemFact (x j : Val) : Prop :=
  to_java x none = .ok j ∧ vsize j ≤ vsize x ∧
  ∀ n, vsize j ≤ n → cmpJPF n j x = true

/-- Facts carried for one converted hashable atom. -/
def AtomFact (x j : Val) : Prop := keyAtom x = true ∧ KeyShape x j

theorem forall2_mem_right {α β : Type} {R : α → β → Prop} :
    ∀ {xs : List α} {js : List β}, List.Forall₂ R xs js →
      ∀ y ∈ js, ∃ x ∈ xs, R x y := by
  intro xs js hf
  induction hf with
  | nil => intro y hy; simp at hy
  | @cons a b l1 l2 h1 h2 ih =>
      intro y hy
      rcases List.mem_cons.mp hy with rfl | hy
      · exact ⟨a, by simp, h1⟩
      · obtain ⟨x, hx, hr⟩ := ih y hy
        exact ⟨x, by simp [hx], hr⟩

theorem vsizeL_le_of_forall₂ :
    ∀ {xs js : List Val}, List.Forall₂ (fun x j => vsize j ≤ vsize x) xs js →
      vsizeL js ≤ vsizeL xs := by
  intro xs js hf
  induction hf with
  | nil => simp [vsizeL]
  | cons h1 h2 ih =>
      simp only [vsizeL]
      omega

theorem vsizeP_le_of_forall₂ :
    ∀ {kvs m : List (Val × Val)},
      List.Forall₂ (fun kx q => vsize q.1 ≤ vsize kx.1 ∧ vsize q.2 ≤ vsize kx.2)
        kvs m → vsizeP m ≤ vsizeP kvs := by
  intro kvs m hf
  induction hf with
  | nil => simp [vsizeP]
  | @cons kx q l1 l2 h1 h2 ih =>
      obtain ⟨k, x⟩ := kx
      obtain ⟨jk, jv⟩ := q
      simp only [vsizeP]
      simp only at h1
      omega

/-- Converted atoms inherit distinctness from the originals. -/
theorem nodup_conv :
    ∀ {xs js : List Val}, List.Forall₂ AtomFact xs js →
      nodupB xs = true → nodupB js = true := by
  intro xs js hf
  induction hf with
  | nil => intro _; rfl
  | @cons x j l1 l2 h1 h2 ih =>
      intro hnd
      simp only [nodupB, Bool.and_eq_true, List.all_eq_true] at hnd ⊢
      refine ⟨?_, ih hnd.2⟩
      intro y hy
      obtain ⟨xy, hxy, hry⟩ := forall2_mem_right h2 y hy
      by_cases hv : veq j y = true
      · exfalso
        have : x = xy := keyshape_veq_eq h1.2 hry.2 hv
        have hcon := hnd.1 xy hxy
        rw [← this] at hcon
        rw [veq_refl_atom h1.1] at hcon
        simp at hcon
      · simp [Bool.not_eq_true] at hv
        simp [hv]

/-- Converted map keys inherit distinctness from the original dict keys. -/
theorem nodup_conv_keys :
    ∀ {kvs m : List (Val × Val)},
      List.Forall₂ (fun kx q => AtomFact kx.1 q.1) kvs m →
      nodupB (kvs.map Prod.fst) = true → nodupB (m.map Prod.fst) = true := by
  intro kvs m hf
  induction hf with
  | nil => intro _; rfl
  | @cons kx q l1 l2 h1 h2 ih =>
      intro hnd
      simp only [List.map_cons, nodupB, Bool.and_eq_true, List.all_eq_true] at hnd ⊢
      refine ⟨?_, ih hnd.2⟩
      intro y hy
      obtain ⟨jq, hjq, rfl⟩ := List.mem_map.mp hy
      obtain ⟨kxy, hkxy, hry⟩ := forall2_mem_right h2 jq hjq
      by_cases hv : veq q.1 jq.1 = true
      · exfalso
        have : kx.1 = kxy.1 := keyshape_veq_eq h1.2 hry.2 hv
        have hcon := hnd.1 kxy.1 (List.mem_map.mpr ⟨kxy, hkxy, rfl⟩)
        rw [← this] at hcon
        rw [veq_refl_atom h1.1] at hcon
        simp at hcon
      · simp [Bool.not_eq_true] at hv
        simp [hv]

theorem forall2_of_mem {α β : Type} {P : α → β → Prop} :
    ∀ (xs : List α), (∀ x ∈ xs, ∃ j, P x j) → ∃ js, List.Forall₂ P xs js := by
  intro xs
  induction xs with
  | nil => intro _; exact ⟨[], List.Forall₂.nil⟩
  | cons x rest ihx =>
      intro hsub
      obtain ⟨j, hj⟩ := hsub x (by simp)
      obtain ⟨js', hjs'⟩ := ihx (fun y hy => hsub y (by simp [hy]))
      exact ⟨j :: js', List.Forall₂.cons hj hjs'⟩

/-- Master round-trip induction over the simple fragment: conversion
succeeds, does not grow the structure size, and the converted value compares
Python-equal to the original at every sufficient fuel. -/
theorem rt_master : ∀ (N : Nat) (v : Val), vsize v ≤ N → simpleVal v = true →
    ∃ j, to_java v none = .ok j ∧ vsize j ≤ vsize v ∧
      (∀ n, vsize j ≤ n → cmpJPF n j v = true) := by
  intro N
  induction N with
  | zero =>
      intro v hN _
      have := vsize_pos v
      omega
  | succ N ih =>
      intro v hN hs
      cases v with
      | vint i =>
          obtain ⟨jk, hconv, hsh⟩ := key_conv (k := .vint i) rfl
          obtain ⟨_, _, hszj, hszk, _, hcmp⟩ := keyshape_facts hsh
          refine ⟨jk, hconv, by omega, ?_⟩
          intro n hn
          rw [hszj] at hn
          obtain ⟨m, rfl⟩ : ∃ m, n = m + 1 := ⟨n - 1, by omega⟩
          rw [hcmp]
          exact (@key_pyEqAtom_iff (.vint i) (.vint i) rfl rfl).mpr rfl
      | vstr s =>
          obtain ⟨jk, hconv, hsh⟩ := key_conv (k := .vstr s) rfl
          obtain ⟨_, _, hszj, hszk, _, hcmp⟩ := keyshape_facts hsh
          refine ⟨jk, hconv, by omega, ?_⟩
          intro n hn
          rw [hszj] at hn
          obtain ⟨m, rfl⟩ : ∃ m, n = m + 1 := ⟨n - 1, by omega⟩
          rw [hcmp]
          exact (@key_pyEqAtom_iff (.vstr s) (.vstr s) rfl rfl).mpr rfl
      | vlist xs =>
          have hsl : simpleL xs = true := hs
          have hvx : vsize (.vlist xs) = 1 + vsizeL xs := rfl
          obtain ⟨js, hf⟩ := forall2_of_mem (P := ElemFact) xs (by
            intro x hx
            have h1 : vsize x ≤ N := by
              have := vsizeL_mem hx
              omega
            exact ih x h1 (simpleL_mem hsl x hx))
          have hconv : to_java (.vlist xs) none = .ok (.jlist js) := by
            have hl := listElems_ok (hf.imp (fun _ _ h => h.1))
            simp only [to_java, hl]
            rfl
          have hszL : vsizeL js ≤ vsizeL xs :=
            vsizeL_le_of_forall₂ (hf.imp (fun _ _ h => h.2.1))
          refine ⟨.jlist js, hconv, by show 1 + vsizeL js ≤ 1 + vsizeL xs; omega, ?_⟩
          intro n hn
          obtain ⟨m, rfl⟩ : ∃ m, n = m + 1 :=
            ⟨n - 1, by have := vsize_pos (Val.jlist js); omega⟩
          show (Nat.beq js.length xs.length &&
            (List.zip js xs).all fun q => cmpJPF m q.1 q.2) = true
          rw [Bool.and_eq_true]
          constructor
          · rw [hf.length_eq]
            simp
          · rw [List.all_eq_true]
            intro q hq
            have hmemz := List.of_mem_zip hq
            have hrel : ElemFact q.2 q.1 := by
              have hflip := List.Forall₂.flip hf
              exact (List.forall₂_iff_zip.mp hflip).2 (by
                obtain ⟨a, b⟩ := q
                exact hq)
            apply hrel.2.2
            have h1 : vsize q.1 ≤ vsizeL js := vsizeL_mem hmemz.1
            have h2 : vsize (Val.jlist js) ≤ m + 1 := hn
            rw [show vsize (Val.jlist js) = 1 + vsizeL js from rfl] at h2
            omega
      | vset xs =>
          have hsp : simpleAtoms xs = true ∧ nodupB xs = true := by
            simpa [simpleVal, Bool.and_eq_true] using hs
          obtain ⟨js, hf⟩ := forall2_of_mem
            (P := fun (x j : Val) => AtomFact x j ∧ to_java x none = .ok j) xs (by
              intro x hx
              have hk := simpleAtoms_mem hsp.1 x hx
              obtain ⟨j, hconvx, hshape⟩ := key_conv hk
              exact ⟨j, ⟨hk, hshape⟩, hconvx⟩)
          have hndj : nodupB js = true := nodup_conv (hf.imp (fun _ _ h => h.1)) hsp.2
          have hfold := setElems_append (hf.imp (fun _ _ h => h.2)) []
            (by intro j hj a ha; simp at ha) hndj
          rw [List.nil_append] at hfold
          have hconv : to_java (.vset xs) none = .ok (.jset js) := by
            simp only [to_java, hfold]
            rfl
          have hszL : vsizeL js ≤ vsizeL xs := by
            apply vsizeL_le_of_forall₂
            apply hf.imp
            intro x j h
            obtain ⟨_, _, hsj, hsx, _, _⟩ := keyshape_facts h.1.2
            omega
          refine ⟨.jset js, hconv, by show 1 + vsizeL js ≤ 1 + vsizeL xs; omega, ?_⟩
          intro n hn
          obtain ⟨m, rfl⟩ : ∃ m, n = m + 1 :=
            ⟨n - 1, by have := vsize_pos (Val.jset js); omega⟩
          rw [show vsize (Val.jset js) = 1 + vsizeL js from rfl] at hn
          show (Nat.beq js.length xs.length &&
            js.all fun jx => if convertsUnhashable jx then false
              else xs.any fun py => cmpJPF m jx py) = true
          rw [Bool.and_eq_true]
          constructor
          · rw [hf.length_eq]
            simp
          · rw [List.all_eq_true]
            intro jx hjx
            obtain ⟨x, hx, hrx⟩ := forall2_mem_right hf jx hjx
            obtain ⟨htg, hunh, hsj, hsx, hvrefl, hcmpx⟩ := keyshape_facts hrx.1.2
            rw [if_neg (by simp [hunh])]
            have hm1 : 1 ≤ m := by
              have h2 : vsize jx ≤ vsizeL js := vsizeL_mem hjx
              omega
            obtain ⟨mm, rfl⟩ : ∃ mm, m = mm + 1 := ⟨m - 1, by omega⟩
            rw [List.any_eq_true]
            refine ⟨x, hx, ?_⟩
            rw [hcmpx]
            exact (@key_pyEqAtom_iff x x hrx.1.1 hrx.1.1).mpr rfl
      | vdict kvs =>
          have hsp : simpleItems kvs = true ∧ nodupB (kvs.map Prod.fst) = true := by
            simpa [simpleVal, Bool.and_eq_true] using hs
          have hvd : vsize (Val.vdict kvs) = 1 + vsizeP kvs := rfl
          obtain ⟨mJ, hf⟩ := forall2_of_mem
            (P := fun (kx q : Val × Val) => (AtomFact kx.1 q.1 ∧ to_java kx.1 none = .ok q.1) ∧
              ElemFact kx.2 q.2) kvs (by
              intro kx hkx
              obtain ⟨hka, hsv⟩ := simpleItems_mem hsp.1 kx hkx
              obtain ⟨jk, hconvk, hshk⟩ := key_conv hka
              have hszx : vsize kx.2 ≤ N := by
                have hq2 := (vsizeP_mem hkx).2
                omega
              obtain ⟨jv, hjv⟩ := ih kx.2 hszx hsv
              exact ⟨(jk, jv), ⟨⟨hka, hshk⟩, hconvk⟩, hjv⟩)
          have hndm : nodupB (mJ.map Prod.fst) = true :=
            nodup_conv_keys (hf.imp (fun _ _ h => h.1.1)) hsp.2
          have hfold := mapItems_append (hf.imp (fun _ _ h => ⟨h.1.2, h.2.1⟩)) []
            (by intro q hq a ha; simp at ha) hndm
          rw [List.nil_append] at hfold
          have hconv : to_java (.vdict kvs) none = .ok (.jmap mJ) := by
            simp only [to_java, hfold]
            rfl
          have hszP : vsizeP mJ ≤ vsizeP kvs := by
            apply vsizeP_le_of_forall₂
            apply hf.imp
            intro kx q h
            obtain ⟨_, _, hsj, hsx, _, _⟩ := keyshape_facts h.1.1.2
            exact ⟨by omega, h.2.2.1⟩
          refine ⟨.jmap mJ, hconv, by show 1 + vsizeP mJ ≤ 1 + vsizeP kvs; omega, ?_⟩
          intro n hn
          obtain ⟨m, rfl⟩ : ∃ m, n = m + 1 :=
            ⟨n - 1, by have := vsize_pos (Val.jmap mJ); omega⟩
          rw [show vsize (Val.jmap mJ) = 1 + vsizeP mJ from rfl] at hn
          show (Nat.beq mJ.length kvs.length &&
            mJ.all fun q =>
              if convertsUnhashable q.1 then false
              else
                match kvs.find? (fun r => cmpJPF m q.1 r.1) with
                | none => false
                | some r =>
                    match to_java (toPythonG q.1) none with
                    | .error _ => false
                    | .ok jk2 =>
                        match mJ.find? (fun r2 => veq r2.1 jk2) with
                        | some r2 => cmpJPF m r2.2 r.2
                        | none => pyEqAtom .vnone r.2) = true
          rw [Bool.and_eq_true]
          constructor
          · rw [hf.length_eq]
            simp
          · rw [List.all_eq_true]
            intro q hq
            obtain ⟨kx, hkx, hrx⟩ := forall2_mem_right hf q hq
            obtain ⟨⟨⟨hka, hshk⟩, hconvk⟩, helem⟩ := hrx
            obtain ⟨htg, hunh, hszjk, hszk, hvrefl, hcmpk⟩ := keyshape_facts hshk
            rw [if_neg (by simp [hunh])]
            have hq1 := vsizeP_mem hq
            have hm1 : 1 ≤ m := by
              have : vsize q.1 ≤ vsizeP mJ := hq1.1
              omega
            obtain ⟨mm, rfl⟩ : ∃ mm, m = mm + 1 := ⟨m - 1, by omega⟩
            have hfind1 : kvs.find? (fun r => cmpJPF (mm + 1) q.1 r.1) =
                some (kx.1, kx.2) := by
              apply find_first_key kvs kx.1 kx.2 ?_ (veq_refl_atom hka) hsp.2
              · intro r hr
                rw [hcmpk]
                exact @key_pyEqAtom_iff kx.1 r.1 hka (simpleItems_mem hsp.1 r hr).1
              · rw [Prod.mk.eta]
                exact hkx
            have hfindJ : mJ.find? (fun r2 => veq r2.1 q.1) = some (q.1, q.2) := by
              apply find_java_key mJ q.1 q.2 ?_ hvrefl hndm
              rw [Prod.mk.eta]
              exact hq
            rw [hfind1, htg, hconvk]
            show (match List.find? (fun r2 => veq r2.1 q.1) mJ with
              | some r2 => cmpJPF (mm + 1) r2.2 (kx.1, kx.2).2
              | none => pyEqAtom Val.vnone (kx.1, kx.2).2) = true
            rw [hfindJ]
            exact helem.2.2 (mm + 1) (by have := hq1.2; omega)
      | vnone => simp [simpleVal] at hs
      | vbool b => simp [simpleVal] at hs
      | vfloat x => simp [simpleVal] at hs
      | vpath s => simp [simpleVal] at hs
      | vbuiltinStr => simp [simpleVal] at hs
      | jboolean b => simp [simpleVal] at hs
      | jcharacter c => simp [simpleVal] at hs
      | jbyte i => simp [simpleVal] at hs
      | jshort i => simp [simpleVal] at hs
      | jinteger i => simp [simpleVal] at hs
      | jlong i => simp [simpleVal] at hs
      | jbigint s => simp [simpleVal] at hs
      | jfloat x => simp [simpleVal] at hs
      | jdouble x => simp [simpleVal] at hs
      | jbigdec x => simp [simpleVal] at hs
      | jstring s => simp [simpleVal] at hs
      | jpath s => simp [simpleVal] at hs
      | jlist xs => simp [simpleVal] at hs
      | jset xs => simp [simpleVal] at hs
      | jmap kvs => simp [simpleVal] at hs
      | jforeign c => simp [simpleVal] at hs
      | wlist xs => simp [simpleVal] at hs
      | wset xs => simp [simpleVal] at hs
      | wmap kvs => simp [simpleVal] at hs

/-- Claim C5: converting a nested host structure of mappings, sequences,
sets, strings and ints to Java and back yields a structure Python-equal to
the original — mapping equality key by key, sequence equality element-wise,
set equality by membership, as evaluated by the adapters' __eq__ methods. -/
theorem claim_C5 (v : Val) (hs : simpleVal v = true) :
    ∃ j r, to_java v none = .ok j ∧ to_python j false = .ok r ∧
      pyEqRes r v = true := by
  obtain ⟨j, hconv, hsz, hcmp⟩ := rt_master (vsize v) v le_rfl hs
  cases v with
  | vint i =>
      refine ⟨j, ?_⟩
      rw [to_java_vint_nohint] at hconv
      by_cases h32 : intMinValue ≤ i ∧ i ≤ intMaxValue
      · rw [if_pos h32] at hconv
        simp only [Except.ok.injEq] at hconv
        subst hconv
        exact ⟨.vint i, by rw [to_java_vint_nohint, if_pos h32], rfl,
          hcmp 1 (by norm_num [vsize])⟩
      · by_cases h64 : longMinValue ≤ i ∧ i ≤ longMaxValue
        · rw [if_neg h32, if_pos h64] at hconv
          simp only [Except.ok.injEq] at hconv
          subst hconv
          exact ⟨.vint i, by rw [to_java_vint_nohint, if_neg h32, if_pos h64], rfl,
            hcmp 1 (by norm_num [vsize])⟩
        · rw [if_neg h32, if_neg h64] at hconv
          simp only [Except.ok.injEq] at hconv
          subst hconv
          exact ⟨.vint (parseDec (decStr i)),
            by rw [to_java_vint_nohint, if_neg h32, if_neg h64], rfl,
            hcmp 1 (by norm_num [vsize])⟩
  | vstr s =>
      have hj : Val.jstring s = j := by
        rw [show to_java (.vstr s) none = .ok (.jstring s) from rfl] at hconv
        simpa using hconv
      subst hj
      exact ⟨.jstring s, ⟨.vstr s, hconv, rfl, hcmp 1 (by norm_num [vsize])⟩⟩
  | vlist xs =>
      cases hlm : to_java_listElems xs with
      | error e =>
          exfalso
          rw [show to_java (.vlist xs) none = Except.error e from by
              simp only [to_java, hlm]
              rfl] at hconv
          cases hconv
      | ok js =>
          have hj : Val.jlist js = j := by
            rw [show to_java (.vlist xs) none = .ok (.jlist js) from by
                simp only [to_java, hlm]
                rfl] at hconv
            simpa using hconv
          subst hj
          exact ⟨.jlist js, ⟨.wlist js, hconv, rfl, hcmp _ le_rfl⟩⟩
  | vset xs =>
      cases hlm : to_java_setElems xs [] with
      | error e =>
          exfalso
          rw [show to_java (.vset xs) none = Except.error e from by
              simp only [to_java, hlm]
              rfl] at hconv
          cases hconv
      | ok js =>
          have hj : Val.jset js = j := by
            rw [show to_java (.vset xs) none = .ok (.jset js) from by
                simp only [to_java, hlm]
                rfl] at hconv
            simpa using hconv
          subst hj
          exact ⟨.jset js, ⟨.wset js, hconv, rfl, hcmp _ le_rfl⟩⟩
  | vdict kvs =>
      cases hlm : to_java_mapItems kvs [] with
      | error e =>
          exfalso
          rw [show to_java (.vdict kvs) none = Except.error e from by
              simp only [to_java, hlm]
              rfl] at hconv
          cases hconv
      | ok m =>
          have hj : Val.jmap m = j := by
            rw [show to_java (.vdict kvs) none = .ok (.jmap m) from by
                simp only [to_java, hlm]
                rfl] at hconv
            simpa using hconv
          subst hj
          exact ⟨.jmap m, ⟨.wmap m, hconv, rfl, hcmp _ le_rfl⟩⟩
  | vnone => simp [simpleVal] at hs
  | vbool b => simp [simpleVal] at hs
  | vfloat x => simp [simpleVal] at hs
  | vpath s => simp [simpleVal] at hs
  | vbuiltinStr => simp [simpleVal] at hs
  | jboolean b => simp [simpleVal] at hs
  | jcharacter c => simp [simpleVal] at hs
  | jbyte i => simp [simpleVal] at hs
  | jshort i => simp [simpleVal] at hs
  | jinteger i => simp [simpleVal] at hs
  | jlong i => simp [simpleVal] at hs
  | jbigint s => simp [simpleVal] at hs
  | jfloat x => simp [simpleVal] at hs
  | jdouble x => simp [simpleVal] at hs
  | jbigdec x => simp [simpleVal] at hs
  | jstring s => simp [simpleVal] at hs
  | jpath s => simp [simpleVal] at hs
  | jlist xs => simp [simpleVal] at hs
  | jset xs => simp [simpleVal] at hs
  | jmap kvs => simp [simpleVal] at hs
  | jforeign c => simp [simpleVal] at hs
  | wlist xs => simp [simpleVal] at hs
  | wset xs => simp [simpleVal] at hs
  | wmap kvs => simp [simpleVal] at hs

theorem claim_C5_witness :
    simpleVal (.vdict [(.vstr "a", .vlist [.vint 1, .vint 2,
      .vset [.vint 3, .vint 4]]), (.vstr "b", .vstr "x")]) = true ∧
    ∃ j r, to_java (.vdict [(.vstr "a", .vlist [.vint 1, .vint 2,
        .vset [.vint 3, .vint 4]]), (.vstr "b", .vstr "x")]) none = .ok j ∧
      to_python j false = .ok r ∧
      pyEqRes r (.vdict [(.vstr "a", .vlist [.vint 1, .vint 2,
        .vset [.vint 3, .vint 4]]), (.vstr "b", .vstr "x")]) = true :=
  ⟨by decide, claim_C5 _ (by decide)⟩
